import Mathlib

/-!
# Multiplexed TCP transporter (`internal/transporter/mtcp.go`)

A shallow embedding of the relay handler (`MTCP`), the multiplex listener
(`MTCPServer`) and the session initiator (`MTCPClient`).

Modelling conventions

* Go interface and pointer values are `Option`s: `none` is `nil`.
* A buffered Go channel `make(chan T, n)` is a bounded FIFO buffer `Chan`.
  A channel operation that would block is `none`.
* Calls that leave the file (closing a connection, logging, metrics, the
  multiplex library, the duplex relay) are recorded in order in a trace of
  `Event`s.  What those calls return is supplied by the caller of the model.
* Every `select` and every channel operation is one atomic step, so an
  interleaving of goroutines is a sequence of steps.
* `session.Close()` is recorded as an event; what it closes inside the
  multiplex library is given by `closedConns`, from the streams that belong
  to each session.
-/

namespace Ehco

/-- A value of interface type `net.Conn` (physical connection or logical
stream), identified by a number; `none` is the nil interface. -/
abbrev NetConn := Option Nat

/-- A value of interface type `error`; `none` is nil. -/
abbrev GoError := Option String

/-- A `*smux.Session`; `none` is nil. -/
abbrev SessionPtr := Option Nat

/-- The fields of `smux.Config`. -/
structure Config where
  Version : Nat
  KeepAliveDisabled : Bool
  KeepAliveInterval : Nat
  KeepAliveTimeout : Nat
  MaxFrameSize : Nat
  MaxReceiveBuffer : Nat
  MaxStreamBuffer : Nat
deriving DecidableEq, Repr

/-- The fields of `lb.Node` that the transporter reads. -/
structure Node where
  Address : String
  Label : String
deriving DecidableEq, Repr

/-- Calls that leave the file, in the order they are made. -/
inductive Event where
  | Close (c : NetConn)
  | SessionClose (s : SessionPtr)
  | Debugf (format : String)
  | Infof (format : String)
  | Errorf (format : String)
  | Observe (label : String) (ms : Int)
  | Dial (addr : String)
  | Transport (c1 c2 : NetConn) (label : String)
  | SmuxServer (conn : NetConn) (cfg : Config)
  | SmuxClient (conn : NetConn) (cfg : Config)
  | RawDial (network addr : String)
  | GoMux (c : NetConn)
  | GoRelay (c : NetConn)
deriving DecidableEq, Repr

/-- Is the event a latency observation. -/
def Event.isObserve : Event → Bool
  | Event.Observe _ _ => true
  | _ => false

/-- Is the event a call of the duplex relay. -/
def Event.isTransport : Event → Bool
  | Event.Transport _ _ _ => true
  | _ => false

/-- Is the event a `Close` of a `net.Conn`. -/
def Event.isClose : Event → Bool
  | Event.Close _ => true
  | _ => false

/-- Is the event the log line that records a dropped stream. -/
def Event.isDrop : Event → Bool
  | Event.Infof f => f == "%s - %s: connection queue is full"
  | _ => false

/-- The configuration carried by a session-negotiation call. -/
def Event.config? : Event → Option Config
  | Event.SmuxServer _ cfg => some cfg
  | Event.SmuxClient _ cfg => some cfg
  | _ => none

/-! ## Relay handler -/

/-- The collaborators of `MTCP`: `s.mtp.Dial(context.TODO(), addr)`, the
package function `transport` (its result and the connections it closes) and
the reading `time.Since(t1).Milliseconds()`. -/
structure MTCP where
  Dial : String → NetConn × GoError
  transport : NetConn → NetConn → String → GoError × List NetConn
  sinceMs : Int

/-- `func (s *MTCP) dialRemote(remote *lb.Node) (net.Conn, error)`. -/
def MTCP.dialRemote (s : MTCP) (remote : Node) (tr : List Event) :
    (NetConn × GoError) × List Event :=
  let r := s.Dial remote.Address
  let tr1 := tr ++ [Event.Dial remote.Address]
  if r.2 ≠ none then
    ((none, r.2), tr1)
  else
    ((r.1, none), tr1 ++ [Event.Observe remote.Label s.sinceMs])

/-- `func (s *MTCP) HandleTCPConn(c net.Conn, remote *lb.Node) error`.
The deferred `c.Close()` is the last event on each return. -/
def MTCP.HandleTCPConn (s : MTCP) (c : NetConn) (remote : Node) (tr : List Event) :
    GoError × List Event :=
  let d := s.dialRemote remote tr
  if d.1.2 ≠ none then
    (d.1.2, d.2 ++ [Event.Close c])
  else
    let tr2 := d.2 ++ [Event.Infof "HandleTCPConn from:%s to:%s"]
    let t := s.transport c d.1.1 remote.Label
    (t.1, tr2 ++ [Event.Transport c d.1.1 remote.Label] ++ t.2.map Event.Close
      ++ [Event.Close c])

/-! ## Channels and the listener -/

/-- A buffered channel: capacity and buffered values, oldest first. -/
structure Chan (α : Type) where
  cap : Nat
  buf : List α
deriving DecidableEq, Repr

/-- A send `ch <- x`: `none` when the buffer is full (the send would block). -/
def Chan.trySend {α : Type} (ch : Chan α) (x : α) : Option (Chan α) :=
  if ch.buf.length < ch.cap then some { ch with buf := ch.buf ++ [x] } else none

/-- A receive `<-ch`: `none` when the buffer is empty (the receive would block). -/
def Chan.tryRecv {α : Type} (ch : Chan α) : Option (α × Chan α) :=
  match ch.buf with
  | [] => none
  | x :: rest => some (x, { ch with buf := rest })

/-- The fields of `MTCPServer` (without the logger and `raw`). -/
structure MTCPServer where
  listenAddr : String
  listener : Option Nat
  errChan : Chan GoError
  connChan : Chan NetConn
deriving DecidableEq, Repr

/-- `func NewMTCPServer(listenAddr string, raw *Raw, l *zap.SugaredLogger)`. -/
def NewMTCPServer (listenAddr : String) : MTCPServer :=
  { listenAddr := listenAddr
    listener := none
    errChan := { cap := 1, buf := [] }
    connChan := { cap := 1024, buf := [] } }

/-- The listener together with the trace of calls made so far. -/
structure World where
  srv : MTCPServer
  trace : List Event
deriving DecidableEq, Repr

/-- Record one call. -/
def World.emit (w : World) (e : Event) : World :=
  { w with trace := w.trace ++ [e] }

/-- The `select` of the demux loop:
`select { case s.connChan <- stream: default: stream.Close(); s.L.Infof(...) }`. -/
def MTCPServer.muxSelect (w : World) (stream : NetConn) : World :=
  match w.srv.connChan.trySend stream with
  | some ch => { w with srv := { w.srv with connChan := ch } }
  | none =>
    (w.emit (Event.Close stream)).emit (Event.Infof "%s - %s: connection queue is full")

/-- The `for` loop of `mux`, run on the successive results of
`session.AcceptStream()`.  The flag is `true` when the loop has left through
`break`, `false` when the results are used up and the task is parked in
`AcceptStream`. -/
def MTCPServer.muxLoop (w : World) : List (NetConn × GoError) → Bool × World
  | [] => (false, w)
  | r :: rest =>
    if r.2 ≠ none then
      (true, w.emit (Event.Errorf "accept stream err: %s"))
    else
      MTCPServer.muxLoop (MTCPServer.muxSelect w r.1) rest

/-- `func (s *MTCPServer) mux(conn net.Conn)`, given `smux.DefaultConfig()`,
the result of `smux.Server` and the results of `session.AcceptStream()`.
The flag is `true` when the task has returned (deferred calls run in
reverse order), `false` when it is parked in `AcceptStream`. -/
def MTCPServer.mux (dflt : Config) (smuxServer : NetConn → Config → SessionPtr × GoError)
    (conn : NetConn) (streams : List (NetConn × GoError)) (w : World) : Bool × World :=
  let cfg := { dflt with KeepAliveDisabled := true }
  let r := smuxServer conn cfg
  let w1 := w.emit (Event.SmuxServer conn cfg)
  if r.2 ≠ none then
    (true, (w1.emit (Event.Debugf "server err %s - %s : %s")).emit (Event.Close conn))
  else
    let w2 := w1.emit (Event.Debugf "session init %s  %s")
    let l := MTCPServer.muxLoop w2 streams
    if l.1 then
      (true, ((l.2.emit (Event.Debugf "session close %s >-< %s")).emit
        (Event.SessionClose r.1)).emit (Event.Close conn))
    else
      (false, l.2)

/-- The calls made for streams that are dropped, in order: for each one
`stream.Close()` and the log line of the `default` branch. -/
def MTCPServer.dropEvents : List NetConn → List Event
  | [] => []
  | x :: rest =>
    Event.Close x :: Event.Infof "%s - %s: connection queue is full"
      :: MTCPServer.dropEvents rest

/-- Offers made one after another, nothing dequeued in between. -/
def MTCPServer.offerAll (w : World) (xs : List NetConn) : World :=
  xs.foldl MTCPServer.muxSelect w

/-- `func (s *MTCPServer) Accept() (conn net.Conn, err error)`.  `none` when
neither channel is ready (the call blocks); `pick` is the runtime's choice
when both are ready. -/
def MTCPServer.Accept (s : MTCPServer) (pick : Bool) :
    Option ((NetConn × GoError) × MTCPServer) :=
  match s.connChan.tryRecv, s.errChan.tryRecv with
  | none, none => none
  | some (conn, ch), none => some ((conn, none), { s with connChan := ch })
  | none, some (err, ch) => some ((none, err), { s with errChan := ch })
  | some (conn, ch1), some (err, ch2) =>
    if pick then some ((conn, none), { s with connChan := ch1 })
    else some ((none, err), { s with errChan := ch2 })

/-- Successive calls of `Accept`, one per scheduling choice; `none` when one
of them blocks. -/
def MTCPServer.acceptN (s : MTCPServer) :
    List Bool → Option (List (NetConn × GoError) × MTCPServer)
  | [] => some ([], s)
  | p :: ps =>
    match s.Accept p with
    | none => none
    | some (r, s1) =>
      match MTCPServer.acceptN s1 ps with
      | none => none
      | some (rs, s2) => some (r :: rs, s2)

/-! ## The raw-accept loop and the serve loop -/

/-- What the serve loop of `ListenAndServe` has done on a sequence of
`Accept` results: `ret` is `some e` once `ListenAndServe` has returned `e`
and `none` while it is parked in `Accept`; `acceptCalls` counts the `Accept`
calls that have returned; `launched` lists the relay tasks started, in order;
`unread` are the results no `Accept` call has asked for. -/
structure ServeResult where
  ret : Option GoError
  acceptCalls : Nat
  launched : List Event
  unread : List (NetConn × GoError)
deriving DecidableEq, Repr

/-- The loop `for { conn, e := s.Accept(); if e != nil { return e }; go func(c net.Conn) {...}(conn) }`
of `ListenAndServe`, run on the successive results of `s.Accept()`. -/
def MTCPServer.serveLoop : List (NetConn × GoError) → ServeResult
  | [] => { ret := none, acceptCalls := 0, launched := [], unread := [] }
  | r :: rest =>
    if r.2 ≠ none then
      { ret := some r.2, acceptCalls := 1, launched := [], unread := rest }
    else
      let t := MTCPServer.serveLoop rest
      { ret := t.ret, acceptCalls := t.acceptCalls + 1,
        launched := Event.GoRelay r.1 :: t.launched, unread := t.unread }

/-- `func (s *MTCPServer) ListenAndServe() error`, given the result of
`net.Listen` and the successive results of `s.Accept()`. -/
def MTCPServer.ListenAndServe (s : MTCPServer) (listen : Option Nat × GoError)
    (accepts : List (NetConn × GoError)) : MTCPServer × ServeResult :=
  if listen.2 ≠ none then
    (s, { ret := some listen.2, acceptCalls := 0, launched := [], unread := accepts })
  else
    ({ s with listener := listen.1 }, MTCPServer.serveLoop accepts)

/-- Where the raw-accept goroutine of `ListenAndServe` stands: at
`lis.Accept()`, or at the send `s.errChan <- err`. -/
inductive RawPC where
  | accepting
  | sending (err : GoError)
deriving DecidableEq, Repr

/-- Where the serve loop stands: at `s.Accept()`, or returned. -/
inductive ServePC where
  | looping
  | returned (e : GoError)
deriving DecidableEq, Repr

/-- The listener after `net.Listen` has succeeded: shared state and the two
loops of `ListenAndServe`. -/
structure System where
  w : World
  raw : RawPC
  serve : ServePC
deriving DecidableEq, Repr

/-- The atomic steps of the tasks that share the listener. -/
inductive Action where
  | rawAccept (c : NetConn) (err : GoError)
  | rawSend
  | muxOffer (stream : NetConn)
  | serveAccept (pick : Bool)
deriving DecidableEq, Repr

/-- Is the action an `Accept` of the serve loop. -/
def Action.isServeAccept : Action → Bool
  | Action.serveAccept _ => true
  | _ => false

/-- The state right after `net.Listen` has succeeded and the raw-accept
goroutine has been started. -/
def System.init (listenAddr : String) (lis : Nat) : System :=
  { w := { srv := { NewMTCPServer listenAddr with listener := some lis }, trace := [] }
    raw := RawPC.accepting
    serve := ServePC.looping }

/-- One step.  `none` when the task cannot take the step in this state:
it is not at that statement, or the channel operation blocks.

* `rawAccept c err`: `c, err := lis.Accept()` returns; with `err != nil` the
  goroutine moves to the send, otherwise it runs `go s.mux(c)` and accepts again.
* `rawSend`: `s.errChan <- err` completes, then `continue`.
* `muxOffer stream`: a demux task runs its `select` on an accepted stream.
* `serveAccept pick`: `conn, e := s.Accept()` returns in the serve loop. -/
def System.step (a : Action) (σ : System) : Option System :=
  match a with
  | Action.rawAccept c err =>
    match σ.raw with
    | RawPC.sending _ => none
    | RawPC.accepting =>
      if err ≠ none then some { σ with raw := RawPC.sending err }
      else some { σ with w := σ.w.emit (Event.GoMux c) }
  | Action.rawSend =>
    match σ.raw with
    | RawPC.accepting => none
    | RawPC.sending err =>
      match σ.w.srv.errChan.trySend err with
      | none => none
      | some ch =>
        some { σ with w := { σ.w with srv := { σ.w.srv with errChan := ch } }
                      raw := RawPC.accepting }
  | Action.muxOffer stream => some { σ with w := MTCPServer.muxSelect σ.w stream }
  | Action.serveAccept pick =>
    match σ.serve with
    | ServePC.returned _ => none
    | ServePC.looping =>
      match σ.w.srv.Accept pick with
      | none => none
      | some (r, s1) =>
        if r.2 ≠ none then
          some { σ with w := { σ.w with srv := s1 }, serve := ServePC.returned r.2 }
        else
          some { σ with w := ({ σ.w with srv := s1 } : World).emit (Event.GoRelay r.1) }

/-- A schedule in which every step is taken; `none` if one is not enabled. -/
def System.exec (σ : System) : List Action → Option System
  | [] => some σ
  | a :: rest =>
    match System.step a σ with
    | none => none
    | some σ1 => System.exec σ1 rest

/-- A schedule in which a step that is not enabled leaves its task parked. -/
def System.run (σ : System) : List Action → System
  | [] => σ
  | a :: rest =>
    match System.step a σ with
    | none => System.run σ rest
    | some σ1 => System.run σ1 rest

/-! ## Session initiator -/

/-- The collaborator of `MTCPClient`: `c.dialer.Dial(network, addr)`. -/
structure MTCPClient where
  Dial : String → String → NetConn × GoError

/-- Is the event a raw dial. -/
def Event.isRawDial : Event → Bool
  | Event.RawDial _ _ => true
  | _ => false

/-- Is the event a client-side session upgrade. -/
def Event.isSmuxClient : Event → Bool
  | Event.SmuxClient _ _ => true
  | _ => false

/-- `func (c *MTCPClient) InitNewSession(ctx context.Context, addr string) (*smux.Session, error)`,
given `smux.DefaultConfig()` and the result of `smux.Client`. -/
def MTCPClient.InitNewSession (c : MTCPClient) (dflt : Config)
    (smuxClient : NetConn → Config → SessionPtr × GoError) (addr : String)
    (tr : List Event) : (SessionPtr × GoError) × List Event :=
  let d := c.Dial "tcp" addr
  let tr1 := tr ++ [Event.RawDial "tcp" addr]
  if d.2 ≠ none then
    ((none, d.2), tr1)
  else
    let cfg := { dflt with KeepAliveDisabled := true }
    let u := smuxClient d.1 cfg
    let tr2 := tr1 ++ [Event.SmuxClient d.1 cfg]
    if u.2 ≠ none then
      ((none, u.2), tr2)
    else
      ((u.1, none), tr2 ++ [Event.Infof "init new session to: %s"])

/-! ## Session-level close -/

/-- The streams the loop of `mux` has taken from `session.AcceptStream()`:
the results before the first one with a non-nil error. -/
def MTCPServer.accepted : List (NetConn × GoError) → List NetConn
  | [] => []
  | r :: rest => if r.2 ≠ none then [] else r.1 :: MTCPServer.accepted rest

/-- Modelled from the spec: `Session.Close` of the multiplex library, which
is not part of this file.  The multiplex protocol has session-level close
propagation and a logical stream belongs to one session for its whole life,
so closing a session closes every stream that belongs to it.  The
connections a trace leaves closed, `owned s` being the streams of session
`s`: a `Close` closes its connection, a `SessionClose` the streams of the
session. -/
def closedConns (owned : SessionPtr → List NetConn) : List Event → List NetConn
  | [] => []
  | Event.Close c :: rest => c :: closedConns owned rest
  | Event.SessionClose s :: rest => owned s ++ closedConns owned rest
  | _ :: rest => closedConns owned rest

/-- Stream ownership after a run of `mux`: the streams accepted from the
session of the task belong to that session. -/
def MTCPServer.ownedBy (session : SessionPtr) (streams : List (NetConn × GoError)) :
    SessionPtr → List NetConn :=
  fun s => if s = session then MTCPServer.accepted streams else []

/-! ## Theorems -/

theorem muxSelect_full (w : World) (x : NetConn)
    (h : w.srv.connChan.cap ≤ w.srv.connChan.buf.length) :
    MTCPServer.muxSelect w x =
      { w with trace := w.trace ++
          [Event.Close x, Event.Infof "%s - %s: connection queue is full"] } := by
  have h1 : ¬ w.srv.connChan.buf.length < w.srv.connChan.cap := by omega
  simp [MTCPServer.muxSelect, Chan.trySend, h1, World.emit]

theorem muxSelect_room (w : World) (x : NetConn)
    (h : w.srv.connChan.buf.length < w.srv.connChan.cap) :
    MTCPServer.muxSelect w x =
      { w with srv := { w.srv with
          connChan := { w.srv.connChan with buf := w.srv.connChan.buf ++ [x] } } } := by
  simp [MTCPServer.muxSelect, Chan.trySend, h]

theorem muxSelect_errChan (w : World) (x : NetConn) :
    (MTCPServer.muxSelect w x).srv.errChan = w.srv.errChan := by
  by_cases h : w.srv.connChan.buf.length < w.srv.connChan.cap
  · rw [muxSelect_room w x h]
  · rw [muxSelect_full w x (by omega)]

theorem muxSelect_cap (w : World) (x : NetConn) :
    (MTCPServer.muxSelect w x).srv.connChan.cap = w.srv.connChan.cap := by
  by_cases h : w.srv.connChan.buf.length < w.srv.connChan.cap
  · rw [muxSelect_room w x h]
  · rw [muxSelect_full w x (by omega)]

theorem dropEvents_append (xs ys : List NetConn) :
    MTCPServer.dropEvents (xs ++ ys) = MTCPServer.dropEvents xs ++ MTCPServer.dropEvents ys := by
  induction xs with
  | nil => rfl
  | cons x rest ih => simp [MTCPServer.dropEvents, ih]

theorem dropEvents_filter_isClose (xs : List NetConn) :
    (MTCPServer.dropEvents xs).filter Event.isClose = xs.map Event.Close := by
  induction xs with
  | nil => rfl
  | cons x rest ih => simp [MTCPServer.dropEvents, Event.isClose, ih]

theorem dropEvents_countP_isClose (xs : List NetConn) :
    (MTCPServer.dropEvents xs).countP Event.isClose = xs.length := by
  induction xs with
  | nil => rfl
  | cons x rest ih => simp [MTCPServer.dropEvents, Event.isClose, ih]

theorem dropEvents_countP_isDrop (xs : List NetConn) :
    (MTCPServer.dropEvents xs).countP Event.isDrop = xs.length := by
  induction xs with
  | nil => rfl
  | cons x rest ih => simp [MTCPServer.dropEvents, Event.isDrop, ih]

/-- Offering `xs` to a backlog holding `b` keeps the first `cap - |b|` of
them behind `b` and drops the others. -/
theorem offerAll_spec (xs : List NetConn) (w : World) :
    (MTCPServer.offerAll w xs).srv.connChan.buf =
        w.srv.connChan.buf ++ xs.take (w.srv.connChan.cap - w.srv.connChan.buf.length) ∧
    (MTCPServer.offerAll w xs).srv.connChan.cap = w.srv.connChan.cap ∧
    (MTCPServer.offerAll w xs).srv.errChan = w.srv.errChan ∧
    (MTCPServer.offerAll w xs).trace =
        w.trace ++ MTCPServer.dropEvents
          (xs.drop (w.srv.connChan.cap - w.srv.connChan.buf.length)) := by
  induction xs generalizing w with
  | nil => simp [MTCPServer.offerAll, MTCPServer.dropEvents]
  | cons x rest ih =>
    have hstep : MTCPServer.offerAll w (x :: rest) =
        MTCPServer.offerAll (MTCPServer.muxSelect w x) rest := rfl
    rw [hstep]
    obtain ⟨h1, h2, h3, h4⟩ := ih (MTCPServer.muxSelect w x)
    rw [h1, h2, h3, h4]
    by_cases h : w.srv.connChan.buf.length < w.srv.connChan.cap
    · rw [muxSelect_room w x h]
      obtain ⟨k, hk⟩ : ∃ k, w.srv.connChan.cap - w.srv.connChan.buf.length = k + 1 :=
        ⟨w.srv.connChan.cap - w.srv.connChan.buf.length - 1, by omega⟩
      have hk2 : w.srv.connChan.cap - (w.srv.connChan.buf.length + 1) = k := by omega
      simp [hk, hk2]
    · have h0 : w.srv.connChan.cap - w.srv.connChan.buf.length = 0 := by omega
      rw [muxSelect_full w x (by omega)]
      simp [h0, MTCPServer.dropEvents]

theorem Accept_conn_only (s : MTCPServer) (pick : Bool) (x : NetConn) (rest : List NetConn)
    (hc : s.connChan.buf = x :: rest) (he : s.errChan.buf = []) :
    s.Accept pick =
      some ((x, none), { s with connChan := { s.connChan with buf := rest } }) := by
  simp [MTCPServer.Accept, Chan.tryRecv, hc, he]

/-- With the error slot empty, as many `Accept` calls as the backlog holds
streams drain it in order. -/
theorem acceptN_drain (xs : List NetConn) (s : MTCPServer) (picks : List Bool)
    (hc : s.connChan.buf = xs) (he : s.errChan.buf = []) (hp : picks.length = xs.length) :
    s.acceptN picks =
      some (xs.map (fun x => (x, none)), { s with connChan := { s.connChan with buf := [] } }) := by
  induction xs generalizing s picks with
  | nil =>
    cases picks with
    | nil =>
      cases s with
      | mk a l e c =>
        cases c with
        | mk cap buf =>
          simp only at hc
          subst hc
          rfl
    | cons p ps => simp at hp
  | cons x rest ih =>
    cases picks with
    | nil => simp at hp
    | cons p ps =>
      have hp2 : ps.length = rest.length := by simpa using hp
      have h1 := Accept_conn_only s p x rest hc he
      have h2 := ih { s with connChan := { s.connChan with buf := rest } } ps rfl he hp2
      simp only [MTCPServer.acceptN, h1, h2, List.map_cons]

/-- C1. Backlog offer at capacity: when the backlog holds exactly as many
streams as its capacity (1024 as built by `NewMTCPServer`), the select that
the demux loop runs on a newly accepted stream is a step that is always
enabled (it does not block), leaves the listener unchanged (the backlog holds
the same streams in the same order, depth equal to the capacity), and its
only calls are the close of the new stream and the drop log line. -/
theorem C1_offer_at_capacity (w : World) (stream : NetConn)
    (hfull : w.srv.connChan.buf.length = w.srv.connChan.cap) :
    (NewMTCPServer w.srv.listenAddr).connChan.cap = 1024 ∧
    (MTCPServer.muxSelect w stream).srv = w.srv ∧
    (MTCPServer.muxSelect w stream).srv.connChan.buf = w.srv.connChan.buf ∧
    (MTCPServer.muxSelect w stream).srv.connChan.buf.length = w.srv.connChan.cap ∧
    (MTCPServer.muxSelect w stream).trace =
      w.trace ++ [Event.Close stream, Event.Infof "%s - %s: connection queue is full"] ∧
    (∀ raw serve, ∃ σ, System.step (Action.muxOffer stream) ⟨w, raw, serve⟩ = some σ ∧
      σ.w = MTCPServer.muxSelect w stream ∧ σ.raw = raw ∧ σ.serve = serve) ∧
    MTCPServer.muxLoop w [(stream, none)] = (false, MTCPServer.muxSelect w stream) := by
  have h := muxSelect_full w stream (by omega)
  refine ⟨rfl, ?_, ?_, ?_, ?_, ?_, ?_⟩
  · rw [h]
  · rw [h]
  · rw [h]; exact hfull
  · rw [h]
  · intro raw serve
    exact ⟨_, rfl, rfl, rfl, rfl⟩
  · simp [MTCPServer.muxLoop]

/-- C1 at a backlog of capacity 2 holding two streams. -/
theorem C1_offer_at_capacity_witness :
    (MTCPServer.muxSelect
      ⟨{ NewMTCPServer "0.0.0.0:1234" with connChan := ⟨2, [some 1, some 2]⟩ }, []⟩
      (some 3)).srv.connChan.buf = [some 1, some 2] :=
  (C1_offer_at_capacity
    ⟨{ NewMTCPServer "0.0.0.0:1234" with connChan := ⟨2, [some 1, some 2]⟩ }, []⟩
    (some 3) (by decide)).2.2.1

/-- C5. The backlog is FIFO: when M streams, M at most the capacity, are
offered one after another to an empty backlog with nothing dequeued in
between, none of them is dropped, and the next M calls of `Accept`, the error
slot being empty, all return, yield exactly those streams in the order they
were offered, each with a nil error, and leave the backlog empty and the
error slot as it was. -/
theorem C5_backlog_fifo (w : World) (xs : List NetConn) (picks : List Bool)
    (hempty : w.srv.connChan.buf = []) (herr : w.srv.errChan.buf = [])
    (hM : xs.length ≤ w.srv.connChan.cap) (hp : picks.length = xs.length) :
    (MTCPServer.offerAll w xs).trace = w.trace ∧
    (MTCPServer.offerAll w xs).srv.connChan.buf = xs ∧
    ∃ s, (MTCPServer.offerAll w xs).srv.acceptN picks =
        some (xs.map (fun x => (x, none)), s) ∧
      s.connChan.buf = [] ∧ s.errChan = w.srv.errChan := by
  obtain ⟨h1, _, h3, h4⟩ := offerAll_spec xs w
  have hbuf : (MTCPServer.offerAll w xs).srv.connChan.buf = xs := by
    rw [h1, hempty]
    simp [List.take_of_length_le hM]
  have htr : (MTCPServer.offerAll w xs).trace = w.trace := by
    rw [h4, hempty]
    simp [List.drop_of_length_le hM, MTCPServer.dropEvents]
  refine ⟨htr, hbuf, _, acceptN_drain xs _ picks hbuf (by rw [h3]; exact herr) hp, rfl, ?_⟩
  exact h3

/-- C5 at capacity 1024 with three streams. -/
theorem C5_backlog_fifo_witness :
    ∃ s, (MTCPServer.offerAll ⟨NewMTCPServer "0.0.0.0:1234", []⟩
        [some 7, some 8, some 9]).srv.acceptN [true, false, true] =
        some ([(some 7, none), (some 8, none), (some 9, none)], s) ∧
      s.connChan.buf = [] ∧ s.errChan = (NewMTCPServer "0.0.0.0:1234").errChan :=
  (C5_backlog_fifo ⟨NewMTCPServer "0.0.0.0:1234", []⟩ [some 7, some 8, some 9]
    [true, false, true] rfl rfl (by decide) rfl).2.2

/-- C6. Load shedding: when K streams are offered, in any order, to an empty
backlog of capacity N and nothing is dequeued, the backlog retains the first
min(K, N) of them in offer order, the other K − min(K, N) are closed with one
drop log line each, every offered stream is retained or closed, and, the
streams being distinct, none is both. -/
theorem C6_load_shedding (w : World) (xs : List NetConn)
    (hempty : w.srv.connChan.buf = []) :
    (MTCPServer.offerAll w xs).srv.connChan.buf = xs.take w.srv.connChan.cap ∧
    (MTCPServer.offerAll w xs).srv.connChan.buf.length = min xs.length w.srv.connChan.cap ∧
    (MTCPServer.offerAll w xs).trace =
      w.trace ++ MTCPServer.dropEvents (xs.drop w.srv.connChan.cap) ∧
    ((MTCPServer.offerAll w xs).trace.drop w.trace.length).filter Event.isClose =
      (xs.drop w.srv.connChan.cap).map Event.Close ∧
    ((MTCPServer.offerAll w xs).trace.drop w.trace.length).countP Event.isClose =
      xs.length - min xs.length w.srv.connChan.cap ∧
    ((MTCPServer.offerAll w xs).trace.drop w.trace.length).countP Event.isDrop =
      xs.length - min xs.length w.srv.connChan.cap ∧
    xs = (MTCPServer.offerAll w xs).srv.connChan.buf ++ xs.drop w.srv.connChan.cap ∧
    (∀ x ∈ xs, x ∈ (MTCPServer.offerAll w xs).srv.connChan.buf ∨
      Event.Close x ∈ (MTCPServer.offerAll w xs).trace.drop w.trace.length) ∧
    (xs.Nodup → ∀ x ∈ xs, ¬ (x ∈ (MTCPServer.offerAll w xs).srv.connChan.buf ∧
      Event.Close x ∈ (MTCPServer.offerAll w xs).trace.drop w.trace.length)) := by
  obtain ⟨h1, _, _, h4⟩ := offerAll_spec xs w
  rw [hempty] at h1 h4
  simp only [List.length_nil, Nat.sub_zero, List.nil_append] at h1 h4
  have hdrop : (MTCPServer.offerAll w xs).trace.drop w.trace.length =
      MTCPServer.dropEvents (xs.drop w.srv.connChan.cap) := by
    rw [h4]; simp
  have hmem : ∀ x, Event.Close x ∈ MTCPServer.dropEvents (xs.drop w.srv.connChan.cap) ↔
      x ∈ xs.drop w.srv.connChan.cap := by
    intro x
    have hf := dropEvents_filter_isClose (xs.drop w.srv.connChan.cap)
    constructor
    · intro hx
      have : Event.Close x ∈ (MTCPServer.dropEvents (xs.drop w.srv.connChan.cap)).filter
          Event.isClose := List.mem_filter.mpr ⟨hx, rfl⟩
      rw [hf] at this
      obtain ⟨y, hy, hyx⟩ := List.mem_map.mp this
      cases hyx
      exact hy
    · intro hx
      have : Event.Close x ∈ (xs.drop w.srv.connChan.cap).map Event.Close :=
        List.mem_map.mpr ⟨x, hx, rfl⟩
      rw [← hf] at this
      exact (List.mem_filter.mp this).1
  refine ⟨h1, ?_, h4, ?_, ?_, ?_, ?_, ?_, ?_⟩
  · rw [h1, List.length_take]; omega
  · rw [hdrop, dropEvents_filter_isClose]
  · rw [hdrop, dropEvents_countP_isClose, List.length_drop]; omega
  · rw [hdrop, dropEvents_countP_isDrop, List.length_drop]; omega
  · rw [h1, List.take_append_drop]
  · intro x hx
    rw [hdrop, hmem, h1]
    rw [← List.take_append_drop w.srv.connChan.cap xs] at hx
    exact List.mem_append.mp hx
  · intro hnd x _ hboth
    rw [hdrop, hmem, h1] at hboth
    rw [← List.take_append_drop w.srv.connChan.cap xs] at hnd
    exact (List.disjoint_of_nodup_append hnd) hboth.1 hboth.2

/-- C6 at capacity 2 with three streams: two retained, one closed with one
drop log line. -/
theorem C6_load_shedding_witness :
    (MTCPServer.offerAll ⟨{ NewMTCPServer "0.0.0.0:1234" with connChan := ⟨2, []⟩ }, []⟩
        [some 1, some 2, some 3]).srv.connChan.buf = [some 1, some 2] ∧
    (MTCPServer.offerAll ⟨{ NewMTCPServer "0.0.0.0:1234" with connChan := ⟨2, []⟩ }, []⟩
        [some 1, some 2, some 3]).trace =
      [Event.Close (some 3), Event.Infof "%s - %s: connection queue is full"] :=
  ⟨(C6_load_shedding ⟨{ NewMTCPServer "0.0.0.0:1234" with connChan := ⟨2, []⟩ }, []⟩
      [some 1, some 2, some 3] rfl).1,
   (C6_load_shedding ⟨{ NewMTCPServer "0.0.0.0:1234" with connChan := ⟨2, []⟩ }, []⟩
      [some 1, some 2, some 3] rfl).2.2.1⟩

theorem filter_isTransport_map_Close (l : List NetConn) :
    (l.map Event.Close).filter Event.isTransport = [] := by
  induction l with
  | nil => rfl
  | cons x rest ih => simp [Event.isTransport, ih]

theorem filter_isObserve_map_Close (l : List NetConn) :
    (l.map Event.Close).filter Event.isObserve = [] := by
  induction l with
  | nil => rfl
  | cons x rest ih => simp [Event.isObserve, ih]

theorem dialRemote_fail (s : MTCP) (remote : Node) (tr : List Event)
    (h : (s.Dial remote.Address).2 ≠ none) :
    s.dialRemote remote tr =
      ((none, (s.Dial remote.Address).2), tr ++ [Event.Dial remote.Address]) := by
  simp [MTCP.dialRemote, h]

theorem dialRemote_ok (s : MTCP) (remote : Node) (tr : List Event)
    (h : (s.Dial remote.Address).2 = none) :
    s.dialRemote remote tr =
      (((s.Dial remote.Address).1, none),
        tr ++ [Event.Dial remote.Address, Event.Observe remote.Label s.sinceMs]) := by
  simp [MTCP.dialRemote, h]

theorem HandleTCPConn_fail (s : MTCP) (c : NetConn) (remote : Node) (tr : List Event)
    (h : (s.Dial remote.Address).2 ≠ none) :
    s.HandleTCPConn c remote tr =
      ((s.Dial remote.Address).2, tr ++ [Event.Dial remote.Address, Event.Close c]) := by
  simp [MTCP.HandleTCPConn, dialRemote_fail s remote tr h, h]

theorem HandleTCPConn_ok (s : MTCP) (c : NetConn) (remote : Node) (tr : List Event)
    (h : (s.Dial remote.Address).2 = none) :
    s.HandleTCPConn c remote tr =
      ((s.transport c (s.Dial remote.Address).1 remote.Label).1,
        tr ++ [Event.Dial remote.Address, Event.Observe remote.Label s.sinceMs,
               Event.Infof "HandleTCPConn from:%s to:%s",
               Event.Transport c (s.Dial remote.Address).1 remote.Label]
           ++ (s.transport c (s.Dial remote.Address).1 remote.Label).2.map Event.Close
           ++ [Event.Close c]) := by
  simp [MTCP.HandleTCPConn, dialRemote_ok s remote tr h]

/-- C2. `Accept` returns exactly one of a stream and an error: when the
backlog holds only non-nil streams and the error slot only non-nil errors,
`Accept` returns exactly when one of the two is non-empty, and each result is
either a non-nil stream with a nil error, the stream being the head of the
backlog, now removed, and the error slot unchanged, or a nil stream with a
non-nil error, the error being the head of the error slot, now removed, and
the backlog unchanged. -/
theorem C2_accept_exactly_one (s : MTCPServer) (pick : Bool)
    (hconn : ∀ x ∈ s.connChan.buf, x ≠ none) (herr : ∀ e ∈ s.errChan.buf, e ≠ none) :
    ((s.Accept pick).isSome ↔ (s.connChan.buf ≠ [] ∨ s.errChan.buf ≠ [])) ∧
    ∀ r s1, s.Accept pick = some (r, s1) →
      (r.1 ≠ none ∧ r.2 = none ∧ s.connChan.buf = r.1 :: s1.connChan.buf ∧
        s1.connChan.cap = s.connChan.cap ∧ s1.errChan = s.errChan) ∨
      (r.1 = none ∧ r.2 ≠ none ∧ s.errChan.buf = r.2 :: s1.errChan.buf ∧
        s1.errChan.cap = s.errChan.cap ∧ s1.connChan = s.connChan) := by
  cases hc : s.connChan.buf with
  | nil =>
    cases he : s.errChan.buf with
    | nil => simp [MTCPServer.Accept, Chan.tryRecv, hc, he]
    | cons e es =>
      have hne : e ≠ none := herr e (by rw [he]; exact List.mem_cons_self _ _)
      refine ⟨by simp [MTCPServer.Accept, Chan.tryRecv, hc, he], ?_⟩
      intro r s1 h
      simp only [MTCPServer.Accept, Chan.tryRecv, hc, he, Option.some.injEq,
        Prod.mk.injEq] at h
      obtain ⟨hr, hs⟩ := h
      subst hr; subst hs
      exact Or.inr ⟨rfl, hne, rfl, rfl, rfl⟩
  | cons x xs =>
    have hnx : x ≠ none := hconn x (by rw [hc]; exact List.mem_cons_self _ _)
    cases he : s.errChan.buf with
    | nil =>
      refine ⟨by simp [MTCPServer.Accept, Chan.tryRecv, hc, he], ?_⟩
      intro r s1 h
      simp only [MTCPServer.Accept, Chan.tryRecv, hc, he, Option.some.injEq,
        Prod.mk.injEq] at h
      obtain ⟨hr, hs⟩ := h
      subst hr; subst hs
      exact Or.inl ⟨hnx, rfl, rfl, rfl, rfl⟩
    | cons e es =>
      have hne : e ≠ none := herr e (by rw [he]; exact List.mem_cons_self _ _)
      cases pick with
      | true =>
        refine ⟨by simp [MTCPServer.Accept, Chan.tryRecv, hc, he], ?_⟩
        intro r s1 h
        simp only [MTCPServer.Accept, Chan.tryRecv, hc, he, if_true, Option.some.injEq,
          Prod.mk.injEq] at h
        obtain ⟨hr, hs⟩ := h
        subst hr; subst hs
        exact Or.inl ⟨hnx, rfl, by simp [hc], rfl, rfl⟩
      | false =>
        refine ⟨by simp [MTCPServer.Accept, Chan.tryRecv, hc, he], ?_⟩
        intro r s1 h
        simp only [MTCPServer.Accept, Chan.tryRecv, hc, he, Bool.false_eq_true, if_false,
          Option.some.injEq, Prod.mk.injEq] at h
        obtain ⟨hr, hs⟩ := h
        subst hr; subst hs
        exact Or.inr ⟨rfl, hne, by simp [he], rfl, rfl⟩

/-- C2 at a listener with one stream in the backlog and one error in the
slot, the runtime choosing the error. -/
theorem C2_accept_exactly_one_witness :
    (MTCPServer.Accept { NewMTCPServer "0.0.0.0:1234" with
        connChan := ⟨1024, [some 5]⟩, errChan := ⟨1, [some "accept: closed"]⟩ } false).isSome ↔
      (([some 5] : List NetConn) ≠ [] ∨ ([some "accept: closed"] : List GoError) ≠ []) :=
  (C2_accept_exactly_one { NewMTCPServer "0.0.0.0:1234" with
      connChan := ⟨1024, [some 5]⟩, errChan := ⟨1, [some "accept: closed"]⟩ } false
    (by decide) (by decide)).1

theorem serveLoop_no_error (rs : List (NetConn × GoError)) (h : ∀ r ∈ rs, r.2 = none) :
    MTCPServer.serveLoop rs =
      { ret := none, acceptCalls := rs.length,
        launched := rs.map (fun r => Event.GoRelay r.1), unread := [] } := by
  induction rs with
  | nil => rfl
  | cons r rest ih =>
    have hr : r.2 = none := h r (List.mem_cons_self _ _)
    have ih2 := ih (fun q hq => h q (List.mem_cons_of_mem _ hq))
    simp [MTCPServer.serveLoop, hr, ih2]

theorem serveLoop_first_error (pre post : List (NetConn × GoError)) (c : NetConn)
    (e : GoError) (hpre : ∀ r ∈ pre, r.2 = none) (he : e ≠ none) :
    MTCPServer.serveLoop (pre ++ (c, e) :: post) =
      { ret := some e, acceptCalls := pre.length + 1,
        launched := pre.map (fun r => Event.GoRelay r.1), unread := post } := by
  induction pre with
  | nil => simp [MTCPServer.serveLoop, he]
  | cons r rest ih =>
    have hr : r.2 = none := hpre r (List.mem_cons_self _ _)
    have ih2 := ih (fun q hq => hpre q (List.mem_cons_of_mem _ hq))
    simp [MTCPServer.serveLoop, hr, ih2]

/-- C3. The serve loop stops at the first fatal error: on a sequence of
`Accept` results whose first non-nil error is `e`, `ListenAndServe` (the
listen having succeeded) returns `e`, the `Accept` call that yielded `e` is
its last one (the later results stay unread), and it has launched one relay
task for each stream returned before `e`, in order, and no other; on a
sequence without an error it has not returned and has launched one relay
task for each result. -/
theorem C3_serve_loop_stops (s : MTCPServer) (lis : Option Nat)
    (pre post : List (NetConn × GoError)) (c : NetConn) (e : GoError)
    (hpre : ∀ r ∈ pre, r.2 = none) (he : e ≠ none) :
    (s.ListenAndServe (lis, none) (pre ++ (c, e) :: post)).2 =
      { ret := some e, acceptCalls := pre.length + 1,
        launched := pre.map (fun r => Event.GoRelay r.1), unread := post } ∧
    MTCPServer.serveLoop (pre ++ (c, e) :: post) =
      (s.ListenAndServe (lis, none) (pre ++ (c, e) :: post)).2 ∧
    (s.ListenAndServe (lis, none) pre).2 =
      { ret := none, acceptCalls := pre.length,
        launched := pre.map (fun r => Event.GoRelay r.1), unread := [] } := by
  refine ⟨?_, ?_, ?_⟩
  · simp [MTCPServer.ListenAndServe, serveLoop_first_error pre post c e hpre he]
  · simp [MTCPServer.ListenAndServe]
  · simp [MTCPServer.ListenAndServe, serveLoop_no_error pre hpre]

/-- C3 on two streams, an error, and a further stream and error. -/
theorem C3_serve_loop_stops_witness :
    ((NewMTCPServer "0.0.0.0:1234").ListenAndServe (some 0, none)
      ([(some 1, none), (some 2, none)] ++ (none, some "accept: closed") ::
        [(some 3, none), (none, some "accept: again")])).2 =
      { ret := some (some "accept: closed"), acceptCalls := 3,
        launched := [Event.GoRelay (some 1), Event.GoRelay (some 2)],
        unread := [(some 3, none), (none, some "accept: again")] } :=
  (C3_serve_loop_stops (NewMTCPServer "0.0.0.0:1234") (some 0)
    [(some 1, none), (some 2, none)] [(some 3, none), (none, some "accept: again")]
    none (some "accept: closed") (by decide) (by decide)).1

/-- C4. `HandleTCPConn` closes the inbound stream on every path: the last
call it makes before it returns is the close of the inbound stream, whether
the dial fails (trace: dial, close), or the dial succeeds and the duplex
relay returns an error or nil (trace: dial, latency sample, log line, relay
call, what the relay closes, close). -/
theorem C4_inbound_closed (s : MTCP) (c : NetConn) (remote : Node) (tr : List Event) :
    (s.HandleTCPConn c remote tr).2.getLast? = some (Event.Close c) ∧
    Event.Close c ∈ (s.HandleTCPConn c remote tr).2.drop tr.length ∧
    ((s.Dial remote.Address).2 ≠ none →
      (s.HandleTCPConn c remote tr).2 = tr ++ [Event.Dial remote.Address, Event.Close c]) ∧
    ((s.Dial remote.Address).2 = none →
      (s.HandleTCPConn c remote tr).2 =
        tr ++ [Event.Dial remote.Address, Event.Observe remote.Label s.sinceMs,
               Event.Infof "HandleTCPConn from:%s to:%s",
               Event.Transport c (s.Dial remote.Address).1 remote.Label]
           ++ (s.transport c (s.Dial remote.Address).1 remote.Label).2.map Event.Close
           ++ [Event.Close c]) := by
  by_cases h : (s.Dial remote.Address).2 = none
  · rw [HandleTCPConn_ok s c remote tr h]
    refine ⟨List.getLast?_concat _, by simp, fun hn => absurd h hn, fun _ => rfl⟩
  · rw [HandleTCPConn_fail s c remote tr h]
    refine ⟨?_, by simp, fun _ => rfl, fun hn => absurd hn h⟩
    have hl : tr ++ [Event.Dial remote.Address, Event.Close c] =
        (tr ++ [Event.Dial remote.Address]) ++ [Event.Close c] := by simp
    show (tr ++ [Event.Dial remote.Address, Event.Close c]).getLast? = some (Event.Close c)
    rw [hl]
    exact List.getLast?_concat _

/-- C4 on a failing dial, a failing relay and a successful relay. -/
theorem C4_inbound_closed_witness :
    (MTCP.HandleTCPConn ⟨fun _ => (none, some "dial timeout"), fun _ _ _ => (none, []), 3⟩
        (some 1) ⟨"10.0.0.1:80", "backend"⟩ []).2.getLast? = some (Event.Close (some 1)) ∧
    (MTCP.HandleTCPConn ⟨fun _ => (some 9, none), fun _ _ _ => (some "reset", [some 9]), 3⟩
        (some 1) ⟨"10.0.0.1:80", "backend"⟩ []).2.getLast? = some (Event.Close (some 1)) ∧
    (MTCP.HandleTCPConn ⟨fun _ => (some 9, none), fun _ _ _ => (none, [some 1, some 9]), 3⟩
        (some 1) ⟨"10.0.0.1:80", "backend"⟩ []).2.getLast? = some (Event.Close (some 1)) :=
  ⟨(C4_inbound_closed ⟨fun _ => (none, some "dial timeout"), fun _ _ _ => (none, []), 3⟩
      (some 1) ⟨"10.0.0.1:80", "backend"⟩ []).1,
   (C4_inbound_closed ⟨fun _ => (some 9, none), fun _ _ _ => (some "reset", [some 9]), 3⟩
      (some 1) ⟨"10.0.0.1:80", "backend"⟩ []).1,
   (C4_inbound_closed ⟨fun _ => (some 9, none), fun _ _ _ => (none, [some 1, some 9]), 3⟩
      (some 1) ⟨"10.0.0.1:80", "backend"⟩ []).1⟩

/-- C7. A handshake latency sample is emitted exactly when the dial
succeeds.  When the dial of `remote.Address` fails, `dialRemote` returns a
nil connection and that error and emits no sample, and `HandleTCPConn`
returns that error without calling the duplex relay.  When the dial succeeds,
`dialRemote` emits exactly one sample, labelled `remote.Label`, and returns
the dialled connection, and `HandleTCPConn` calls the duplex relay exactly
once, on the inbound stream, the dialled connection and `remote.Label`, and
returns its result. -/
theorem C7_latency_sample_iff_dial (s : MTCP) (c : NetConn) (remote : Node)
    (tr : List Event) :
    ((s.Dial remote.Address).2 ≠ none →
      s.dialRemote remote tr =
        ((none, (s.Dial remote.Address).2), tr ++ [Event.Dial remote.Address]) ∧
      ((s.dialRemote remote tr).2.drop tr.length).filter Event.isObserve = [] ∧
      (s.HandleTCPConn c remote tr).1 = (s.Dial remote.Address).2 ∧
      ((s.HandleTCPConn c remote tr).2.drop tr.length).filter Event.isObserve = [] ∧
      ((s.HandleTCPConn c remote tr).2.drop tr.length).filter Event.isTransport = []) ∧
    ((s.Dial remote.Address).2 = none →
      s.dialRemote remote tr =
        (((s.Dial remote.Address).1, none),
          tr ++ [Event.Dial remote.Address, Event.Observe remote.Label s.sinceMs]) ∧
      ((s.dialRemote remote tr).2.drop tr.length).filter Event.isObserve =
        [Event.Observe remote.Label s.sinceMs] ∧
      (s.HandleTCPConn c remote tr).1 =
        (s.transport c (s.Dial remote.Address).1 remote.Label).1 ∧
      ((s.HandleTCPConn c remote tr).2.drop tr.length).filter Event.isObserve =
        [Event.Observe remote.Label s.sinceMs] ∧
      ((s.HandleTCPConn c remote tr).2.drop tr.length).filter Event.isTransport =
        [Event.Transport c (s.Dial remote.Address).1 remote.Label]) := by
  constructor
  · intro h
    rw [HandleTCPConn_fail s c remote tr h, dialRemote_fail s remote tr h]
    simp [Event.isObserve, Event.isTransport]
  · intro h
    rw [HandleTCPConn_ok s c remote tr h, dialRemote_ok s remote tr h]
    simp [Event.isObserve, Event.isTransport, List.filter_append,
      filter_isTransport_map_Close, filter_isObserve_map_Close]

/-- C7 on a failing dial and on a successful one. -/
theorem C7_latency_sample_iff_dial_witness :
    (((MTCP.mk (fun _ => (none, some "dial timeout")) (fun _ _ _ => (none, [])) 3).HandleTCPConn
        (some 1) ⟨"10.0.0.1:80", "backend"⟩ []).2.drop 0).filter Event.isObserve = [] ∧
    (((MTCP.mk (fun _ => (some 9, none)) (fun _ _ _ => (none, [])) 3).HandleTCPConn
        (some 1) ⟨"10.0.0.1:80", "backend"⟩ []).2.drop 0).filter Event.isObserve =
      [Event.Observe "backend" 3] :=
  ⟨((C7_latency_sample_iff_dial
      (MTCP.mk (fun _ => (none, some "dial timeout")) (fun _ _ _ => (none, [])) 3)
      (some 1) ⟨"10.0.0.1:80", "backend"⟩ []).1 (by decide)).2.2.2.1,
   ((C7_latency_sample_iff_dial
      (MTCP.mk (fun _ => (some 9, none)) (fun _ _ _ => (none, [])) 3)
      (some 1) ⟨"10.0.0.1:80", "backend"⟩ []).2 rfl).2.2.2.1⟩

theorem muxLoop_no_error (rs : List (NetConn × GoError)) (w : World)
    (h : ∀ r ∈ rs, r.2 = none) :
    MTCPServer.muxLoop w rs = (false, MTCPServer.offerAll w (rs.map Prod.fst)) := by
  induction rs generalizing w with
  | nil => rfl
  | cons r rest ih =>
    have hr : r.2 = none := h r (List.mem_cons_self _ _)
    have ih2 := ih (MTCPServer.muxSelect w r.1) (fun q hq => h q (List.mem_cons_of_mem _ hq))
    simp only [MTCPServer.muxLoop, hr, ne_eq, not_true_eq_false, if_false, ih2]
    rfl

theorem muxLoop_first_error (pre post : List (NetConn × GoError)) (x : NetConn)
    (e : GoError) (w : World) (hpre : ∀ r ∈ pre, r.2 = none) (he : e ≠ none) :
    MTCPServer.muxLoop w (pre ++ (x, e) :: post) =
      (true, (MTCPServer.offerAll w (pre.map Prod.fst)).emit
        (Event.Errorf "accept stream err: %s")) := by
  induction pre generalizing w with
  | nil => simp [MTCPServer.muxLoop, he, MTCPServer.offerAll]
  | cons r rest ih =>
    have hr : r.2 = none := hpre r (List.mem_cons_self _ _)
    have ih2 := ih (MTCPServer.muxSelect w r.1)
      (fun q hq => hpre q (List.mem_cons_of_mem _ hq))
    have hstep : MTCPServer.muxLoop w (r :: rest ++ (x, e) :: post) =
        MTCPServer.muxLoop (MTCPServer.muxSelect w r.1) (rest ++ (x, e) :: post) := by
      show MTCPServer.muxLoop w (r :: (rest ++ (x, e) :: post)) = _
      simp only [MTCPServer.muxLoop, hr, ne_eq, not_true_eq_false, if_false]
    rw [hstep, ih2]
    rfl

/-- A sequence of results either holds no error or splits at its first one. -/
theorem split_first_error (rs : List (NetConn × GoError)) :
    (∀ r ∈ rs, r.2 = none) ∨
    ∃ pre x e post, rs = pre ++ (x, e) :: post ∧ (∀ r ∈ pre, r.2 = none) ∧ e ≠ none := by
  induction rs with
  | nil => exact Or.inl (by simp)
  | cons r rest ih =>
    by_cases hr : r.2 = none
    · rcases ih with h | ⟨pre, x, e, post, h1, h2, h3⟩
      · left
        intro q hq
        rcases List.mem_cons.mp hq with hq | hq
        · rw [hq]; exact hr
        · exact h q hq
      · right
        refine ⟨r :: pre, x, e, post, by rw [h1]; rfl, ?_, h3⟩
        intro q hq
        rcases List.mem_cons.mp hq with hq | hq
        · rw [hq]; exact hr
        · exact h2 q hq
    · right
      exact ⟨[], r.1, r.2, rest, rfl, by simp, hr⟩

theorem muxLoop_srv (rs : List (NetConn × GoError)) (w : World) :
    (MTCPServer.muxLoop w rs).2.srv.errChan = w.srv.errChan ∧
    (MTCPServer.muxLoop w rs).2.srv.connChan.cap = w.srv.connChan.cap ∧
    ∃ t, (MTCPServer.muxLoop w rs).2.srv.connChan.buf = w.srv.connChan.buf ++ t := by
  rcases split_first_error rs with h | ⟨pre, x, e, post, h1, h2, h3⟩
  · rw [muxLoop_no_error rs w h]
    obtain ⟨a, b, c, _⟩ := offerAll_spec (rs.map Prod.fst) w
    exact ⟨c, b, _, a⟩
  · rw [h1, muxLoop_first_error pre post x e w h2 h3]
    obtain ⟨a, b, c, _⟩ := offerAll_spec (pre.map Prod.fst) w
    exact ⟨c, b, _, a⟩

theorem mux_negotiation_fails (dflt : Config)
    (smuxServer : NetConn → Config → SessionPtr × GoError) (conn : NetConn)
    (streams : List (NetConn × GoError)) (w : World)
    (h : (smuxServer conn { dflt with KeepAliveDisabled := true }).2 ≠ none) :
    MTCPServer.mux dflt smuxServer conn streams w =
      (true, { w with trace := w.trace ++
        [Event.SmuxServer conn { dflt with KeepAliveDisabled := true },
         Event.Debugf "server err %s - %s : %s", Event.Close conn] }) := by
  simp [MTCPServer.mux, h, World.emit]

theorem mux_negotiation_ok (dflt : Config)
    (smuxServer : NetConn → Config → SessionPtr × GoError) (conn : NetConn)
    (streams : List (NetConn × GoError)) (w : World)
    (h : (smuxServer conn { dflt with KeepAliveDisabled := true }).2 = none) :
    MTCPServer.mux dflt smuxServer conn streams w =
      if (MTCPServer.muxLoop { w with trace := w.trace ++
          [Event.SmuxServer conn { dflt with KeepAliveDisabled := true },
           Event.Debugf "session init %s  %s"] } streams).1 then
        (true, { (MTCPServer.muxLoop { w with trace := w.trace ++
          [Event.SmuxServer conn { dflt with KeepAliveDisabled := true },
           Event.Debugf "session init %s  %s"] } streams).2 with
          trace := (MTCPServer.muxLoop { w with trace := w.trace ++
            [Event.SmuxServer conn { dflt with KeepAliveDisabled := true },
             Event.Debugf "session init %s  %s"] } streams).2.trace ++
            [Event.Debugf "session close %s >-< %s",
             Event.SessionClose (smuxServer conn { dflt with KeepAliveDisabled := true }).1,
             Event.Close conn] })
      else
        (false, (MTCPServer.muxLoop { w with trace := w.trace ++
          [Event.SmuxServer conn { dflt with KeepAliveDisabled := true },
           Event.Debugf "session init %s  %s"] } streams).2) := by
  simp [MTCPServer.mux, h, World.emit]

theorem mux_srv (dflt : Config)
    (smuxServer : NetConn → Config → SessionPtr × GoError) (conn : NetConn)
    (streams : List (NetConn × GoError)) (w : World) :
    (MTCPServer.mux dflt smuxServer conn streams w).2.srv.errChan = w.srv.errChan ∧
    (MTCPServer.mux dflt smuxServer conn streams w).2.srv.connChan.cap = w.srv.connChan.cap ∧
    ∃ t, (MTCPServer.mux dflt smuxServer conn streams w).2.srv.connChan.buf =
      w.srv.connChan.buf ++ t := by
  by_cases h : (smuxServer conn { dflt with KeepAliveDisabled := true }).2 = none
  · rw [mux_negotiation_ok dflt smuxServer conn streams w h]
    have hl := muxLoop_srv streams { w with trace := w.trace ++
          [Event.SmuxServer conn { dflt with KeepAliveDisabled := true },
           Event.Debugf "session init %s  %s"] }
    split
    · exact hl
    · exact hl
  · rw [mux_negotiation_fails dflt smuxServer conn streams w h]
    exact ⟨rfl, rfl, [], by simp⟩

theorem Accept_error_from_slot (s : MTCPServer) (pick : Bool) (r : NetConn × GoError)
    (s1 : MTCPServer) (h : s.Accept pick = some (r, s1)) (hr : r.2 ≠ none) :
    s.errChan.buf = r.2 :: s1.errChan.buf := by
  cases hc : s.connChan.buf with
  | nil =>
    cases he : s.errChan.buf with
    | nil => simp [MTCPServer.Accept, Chan.tryRecv, hc, he] at h
    | cons e es =>
      simp only [MTCPServer.Accept, Chan.tryRecv, hc, he, Option.some.injEq,
        Prod.mk.injEq] at h
      obtain ⟨h1, h2⟩ := h
      subst h1; subst h2
      rfl
  | cons x xs =>
    cases he : s.errChan.buf with
    | nil =>
      simp only [MTCPServer.Accept, Chan.tryRecv, hc, he, Option.some.injEq,
        Prod.mk.injEq] at h
      obtain ⟨h1, _⟩ := h
      subst h1
      exact absurd rfl hr
    | cons e es =>
      cases pick with
      | true =>
        simp only [MTCPServer.Accept, Chan.tryRecv, hc, he, if_true, Option.some.injEq,
          Prod.mk.injEq] at h
        obtain ⟨h1, _⟩ := h
        subst h1
        exact absurd rfl hr
      | false =>
        simp only [MTCPServer.Accept, Chan.tryRecv, hc, he, Bool.false_eq_true, if_false,
          Option.some.injEq, Prod.mk.injEq] at h
        obtain ⟨h1, h2⟩ := h
        subst h1; subst h2
        rfl

theorem accepted_no_error (rs : List (NetConn × GoError)) (h : ∀ r ∈ rs, r.2 = none) :
    MTCPServer.accepted rs = rs.map Prod.fst := by
  induction rs with
  | nil => rfl
  | cons r rest ih =>
    have hr : r.2 = none := h r (List.mem_cons_self _ _)
    simp [MTCPServer.accepted, hr, ih (fun q hq => h q (List.mem_cons_of_mem _ hq))]

theorem accepted_first_error (pre post : List (NetConn × GoError)) (x : NetConn)
    (e : GoError) (hpre : ∀ r ∈ pre, r.2 = none) (he : e ≠ none) :
    MTCPServer.accepted (pre ++ (x, e) :: post) = pre.map Prod.fst := by
  induction pre with
  | nil => simp [MTCPServer.accepted, he]
  | cons r rest ih =>
    have hr : r.2 = none := hpre r (List.mem_cons_self _ _)
    simp [MTCPServer.accepted, hr, ih (fun q hq => hpre q (List.mem_cons_of_mem _ hq))]

/-- The streams the loop hands to its select are the accepted ones. -/
theorem muxLoop_accepted (rs : List (NetConn × GoError)) (w : World) :
    (MTCPServer.muxLoop w rs).2.srv = (MTCPServer.offerAll w (MTCPServer.accepted rs)).srv := by
  rcases split_first_error rs with h | ⟨pre, x, e, post, h1, h2, h3⟩
  · rw [muxLoop_no_error rs w h, accepted_no_error rs h]
  · rw [h1, muxLoop_first_error pre post x e w h2 h3, accepted_first_error pre post x e h2 h3]
    rfl

theorem closedConns_append (owned : SessionPtr → List NetConn) (a b : List Event) :
    closedConns owned (a ++ b) = closedConns owned a ++ closedConns owned b := by
  induction a with
  | nil => rfl
  | cons ev rest ih =>
    cases ev <;> simp [closedConns, ih]

theorem closedConns_dropEvents (owned : SessionPtr → List NetConn) (xs : List NetConn) :
    closedConns owned (MTCPServer.dropEvents xs) = xs := by
  induction xs with
  | nil => rfl
  | cons x rest ih => simp [MTCPServer.dropEvents, closedConns, ih]

theorem mux_stream_accept_fails (dflt : Config)
    (smuxServer : NetConn → Config → SessionPtr × GoError) (conn : NetConn) (w : World)
    (pre post : List (NetConn × GoError)) (x : NetConn) (e : GoError)
    (h : (smuxServer conn { dflt with KeepAliveDisabled := true }).2 = none)
    (hpre : ∀ r ∈ pre, r.2 = none) (he : e ≠ none) :
    (MTCPServer.mux dflt smuxServer conn (pre ++ (x, e) :: post) w).1 = true ∧
    (MTCPServer.mux dflt smuxServer conn (pre ++ (x, e) :: post) w).2.trace =
      w.trace ++ [Event.SmuxServer conn { dflt with KeepAliveDisabled := true },
                  Event.Debugf "session init %s  %s"]
        ++ MTCPServer.dropEvents
            ((pre.map Prod.fst).drop (w.srv.connChan.cap - w.srv.connChan.buf.length))
        ++ [Event.Errorf "accept stream err: %s",
            Event.Debugf "session close %s >-< %s",
            Event.SessionClose (smuxServer conn { dflt with KeepAliveDisabled := true }).1,
            Event.Close conn] ∧
    (MTCPServer.mux dflt smuxServer conn (pre ++ (x, e) :: post) w).2.srv.connChan.buf =
      w.srv.connChan.buf ++
        (pre.map Prod.fst).take (w.srv.connChan.cap - w.srv.connChan.buf.length) := by
  rw [mux_negotiation_ok dflt smuxServer conn _ w h,
    muxLoop_first_error pre post x e _ hpre he]
  obtain ⟨h1, _, _, h4⟩ := offerAll_spec (pre.map Prod.fst) { w with trace := w.trace ++
      [Event.SmuxServer conn { dflt with KeepAliveDisabled := true },
       Event.Debugf "session init %s  %s"] }
  simp only [if_true, World.emit, h1, h4]
  simp

theorem mux_parked (dflt : Config)
    (smuxServer : NetConn → Config → SessionPtr × GoError) (conn : NetConn) (w : World)
    (rs : List (NetConn × GoError))
    (h : (smuxServer conn { dflt with KeepAliveDisabled := true }).2 = none)
    (hrs : ∀ r ∈ rs, r.2 = none) :
    (MTCPServer.mux dflt smuxServer conn rs w).1 = false ∧
    (MTCPServer.mux dflt smuxServer conn rs w).2.trace =
      w.trace ++ [Event.SmuxServer conn { dflt with KeepAliveDisabled := true },
                  Event.Debugf "session init %s  %s"]
        ++ MTCPServer.dropEvents
            ((rs.map Prod.fst).drop (w.srv.connChan.cap - w.srv.connChan.buf.length)) ∧
    (MTCPServer.mux dflt smuxServer conn rs w).2.srv.connChan.buf =
      w.srv.connChan.buf ++
        (rs.map Prod.fst).take (w.srv.connChan.cap - w.srv.connChan.buf.length) := by
  rw [mux_negotiation_ok dflt smuxServer conn _ w h, muxLoop_no_error rs _ hrs]
  obtain ⟨h1, _, _, h4⟩ := offerAll_spec (rs.map Prod.fst) { w with trace := w.trace ++
      [Event.SmuxServer conn { dflt with KeepAliveDisabled := true },
       Event.Debugf "session init %s  %s"] }
  simp only [Bool.false_eq_true, if_false, h1, h4]
  simp

/-- What a run of `mux` leaves closed, on each of its three paths. -/
theorem mux_closedConns (dflt : Config)
    (smuxServer : NetConn → Config → SessionPtr × GoError) (conn : NetConn) (w : World)
    (owned : SessionPtr → List NetConn) :
    (∀ streams, (smuxServer conn { dflt with KeepAliveDisabled := true }).2 ≠ none →
      closedConns owned
        ((MTCPServer.mux dflt smuxServer conn streams w).2.trace.drop w.trace.length) =
          [conn]) ∧
    (∀ pre x e post, (smuxServer conn { dflt with KeepAliveDisabled := true }).2 = none →
      (∀ r ∈ pre, r.2 = none) → e ≠ none →
      closedConns owned
        ((MTCPServer.mux dflt smuxServer conn (pre ++ (x, e) :: post) w).2.trace.drop
          w.trace.length) =
        (pre.map Prod.fst).drop (w.srv.connChan.cap - w.srv.connChan.buf.length)
          ++ owned (smuxServer conn { dflt with KeepAliveDisabled := true }).1 ++ [conn]) ∧
    (∀ rs, (smuxServer conn { dflt with KeepAliveDisabled := true }).2 = none →
      (∀ r ∈ rs, r.2 = none) →
      closedConns owned
        ((MTCPServer.mux dflt smuxServer conn rs w).2.trace.drop w.trace.length) =
        (rs.map Prod.fst).drop (w.srv.connChan.cap - w.srv.connChan.buf.length)) := by
  refine ⟨?_, ?_, ?_⟩
  · intro streams h
    rw [mux_negotiation_fails dflt smuxServer conn streams w h]
    simp [closedConns]
  · intro pre x e post h hpre he
    rw [(mux_stream_accept_fails dflt smuxServer conn w pre post x e h hpre he).2.1]
    simp [closedConns_append, closedConns, closedConns_dropEvents]
  · intro rs h hrs
    rw [(mux_parked dflt smuxServer conn w rs h hrs).2.1]
    simp [closedConns_append, closedConns, closedConns_dropEvents]

/-- Whatever a run of `mux` leaves closed is its connection, a stream it
accepted, or a stream of its session. -/
theorem mux_closedConns_mem (dflt : Config)
    (smuxServer : NetConn → Config → SessionPtr × GoError) (conn : NetConn) (w : World)
    (owned : SessionPtr → List NetConn) (streams : List (NetConn × GoError)) (y : NetConn)
    (hy : y ∈ closedConns owned
      ((MTCPServer.mux dflt smuxServer conn streams w).2.trace.drop w.trace.length)) :
    y = conn ∨ y ∈ MTCPServer.accepted streams ∨
      y ∈ owned (smuxServer conn { dflt with KeepAliveDisabled := true }).1 := by
  obtain ⟨ha, hb, hc⟩ := mux_closedConns dflt smuxServer conn w owned
  by_cases h : (smuxServer conn { dflt with KeepAliveDisabled := true }).2 = none
  · rcases split_first_error streams with hs | ⟨pre, x, e, post, h1, h2, h3⟩
    · rw [hc streams h hs] at hy
      rw [accepted_no_error streams hs]
      exact Or.inr (Or.inl (List.mem_of_mem_drop hy))
    · rw [h1] at hy ⊢
      rw [hb pre x e post h h2 h3] at hy
      rw [accepted_first_error pre post x e h2 h3]
      simp only [List.mem_append, List.mem_singleton] at hy
      rcases hy with (hy | hy) | hy
      · exact Or.inr (Or.inl (List.mem_of_mem_drop hy))
      · exact Or.inr (Or.inr hy)
      · exact Or.inl hy
  · rw [ha streams h] at hy
    simp only [List.mem_singleton] at hy
    exact Or.inl hy

/-- C8 (amended). Failures of a demux task are local.  (a) When the
server-side negotiation fails, `mux` logs, closes the connection and returns,
the listener unchanged.  (b) When a stream-accept fails, `mux` returns after
closing the session and then the connection; the streams it accepted before
were enqueued while the backlog had room and closed otherwise.  (c) While no
stream-accept fails the task stays in its loop.  (d) On every path the error
slot is unchanged and the backlog is the old one followed by streams this
task enqueued, so no stream is removed and an error returned by an `Accept`
after the task was in the slot before it.  (e) Each select step, from any
state, leaves the error slot unchanged and either appends the stream to the
backlog, calling nothing, or leaves the listener unchanged and calls `Close`
on that stream only.  (f) What the task leaves closed, session-level close
included: the connection on path (a); the streams it dropped, the streams of
its session and the connection on path (b); the streams it dropped on path
(c); on every path only the connection, streams it accepted and streams of
its session, so a stream in the backlog that is none of these stays in the
backlog and is not closed.  (g) The streams accepted from the session
belonging to it, on path (b) the streams this task enqueued are in the
backlog and closed. -/
theorem C8_demux_failures_local (dflt : Config)
    (smuxServer : NetConn → Config → SessionPtr × GoError) (conn : NetConn) (w : World) :
    (∀ streams, (smuxServer conn { dflt with KeepAliveDisabled := true }).2 ≠ none →
      MTCPServer.mux dflt smuxServer conn streams w =
        (true, { w with trace := w.trace ++
          [Event.SmuxServer conn { dflt with KeepAliveDisabled := true },
           Event.Debugf "server err %s - %s : %s", Event.Close conn] })) ∧
    (∀ pre x e post, (smuxServer conn { dflt with KeepAliveDisabled := true }).2 = none →
      (∀ r ∈ pre, r.2 = none) → e ≠ none →
      (MTCPServer.mux dflt smuxServer conn (pre ++ (x, e) :: post) w).1 = true ∧
      (MTCPServer.mux dflt smuxServer conn (pre ++ (x, e) :: post) w).2.trace =
        w.trace ++ [Event.SmuxServer conn { dflt with KeepAliveDisabled := true },
                    Event.Debugf "session init %s  %s"]
          ++ MTCPServer.dropEvents
              ((pre.map Prod.fst).drop (w.srv.connChan.cap - w.srv.connChan.buf.length))
          ++ [Event.Errorf "accept stream err: %s",
              Event.Debugf "session close %s >-< %s",
              Event.SessionClose (smuxServer conn { dflt with KeepAliveDisabled := true }).1,
              Event.Close conn] ∧
      (MTCPServer.mux dflt smuxServer conn (pre ++ (x, e) :: post) w).2.srv.connChan.buf =
        w.srv.connChan.buf ++
          (pre.map Prod.fst).take (w.srv.connChan.cap - w.srv.connChan.buf.length)) ∧
    (∀ rs, (smuxServer conn { dflt with KeepAliveDisabled := true }).2 = none →
      (∀ r ∈ rs, r.2 = none) →
      (MTCPServer.mux dflt smuxServer conn rs w).1 = false ∧
      (MTCPServer.mux dflt smuxServer conn rs w).2.trace =
        w.trace ++ [Event.SmuxServer conn { dflt with KeepAliveDisabled := true },
                    Event.Debugf "session init %s  %s"]
          ++ MTCPServer.dropEvents
              ((rs.map Prod.fst).drop (w.srv.connChan.cap - w.srv.connChan.buf.length)) ∧
      (MTCPServer.mux dflt smuxServer conn rs w).2.srv.connChan.buf =
        w.srv.connChan.buf ++
          (rs.map Prod.fst).take (w.srv.connChan.cap - w.srv.connChan.buf.length)) ∧
    (∀ streams,
      (MTCPServer.mux dflt smuxServer conn streams w).2.srv.errChan = w.srv.errChan ∧
      (MTCPServer.mux dflt smuxServer conn streams w).2.srv.connChan.cap =
        w.srv.connChan.cap ∧
      (∃ t, (MTCPServer.mux dflt smuxServer conn streams w).2.srv.connChan.buf =
        w.srv.connChan.buf ++ t) ∧
      ∀ pick r s1,
        (MTCPServer.mux dflt smuxServer conn streams w).2.srv.Accept pick = some (r, s1) →
        r.2 ≠ none → w.srv.errChan.buf = r.2 :: s1.errChan.buf) ∧
    (∀ (w1 : World) (stream : NetConn),
      (MTCPServer.muxSelect w1 stream).srv.errChan = w1.srv.errChan ∧
      (((MTCPServer.muxSelect w1 stream).srv.connChan.buf = w1.srv.connChan.buf ++ [stream] ∧
          (MTCPServer.muxSelect w1 stream).trace = w1.trace) ∨
        ((MTCPServer.muxSelect w1 stream).srv = w1.srv ∧
          (MTCPServer.muxSelect w1 stream).trace = w1.trace ++
            [Event.Close stream, Event.Infof "%s - %s: connection queue is full"])) ∧
      (stream ∉ w1.srv.connChan.buf →
        ∀ x, Event.Close x ∈ (MTCPServer.muxSelect w1 stream).trace.drop w1.trace.length →
          x ∉ (MTCPServer.muxSelect w1 stream).srv.connChan.buf)) ∧
    (∀ (owned : SessionPtr → List NetConn),
      (∀ streams, (smuxServer conn { dflt with KeepAliveDisabled := true }).2 ≠ none →
        closedConns owned
          ((MTCPServer.mux dflt smuxServer conn streams w).2.trace.drop w.trace.length) =
            [conn]) ∧
      (∀ pre x e post, (smuxServer conn { dflt with KeepAliveDisabled := true }).2 = none →
        (∀ r ∈ pre, r.2 = none) → e ≠ none →
        closedConns owned
          ((MTCPServer.mux dflt smuxServer conn (pre ++ (x, e) :: post) w).2.trace.drop
            w.trace.length) =
          (pre.map Prod.fst).drop (w.srv.connChan.cap - w.srv.connChan.buf.length)
            ++ owned (smuxServer conn { dflt with KeepAliveDisabled := true }).1
            ++ [conn]) ∧
      (∀ rs, (smuxServer conn { dflt with KeepAliveDisabled := true }).2 = none →
        (∀ r ∈ rs, r.2 = none) →
        closedConns owned
          ((MTCPServer.mux dflt smuxServer conn rs w).2.trace.drop w.trace.length) =
          (rs.map Prod.fst).drop (w.srv.connChan.cap - w.srv.connChan.buf.length)) ∧
      (∀ streams y,
        y ∈ closedConns owned
          ((MTCPServer.mux dflt smuxServer conn streams w).2.trace.drop w.trace.length) →
        y = conn ∨ y ∈ MTCPServer.accepted streams ∨
          y ∈ owned (smuxServer conn { dflt with KeepAliveDisabled := true }).1) ∧
      (∀ streams y, y ∈ w.srv.connChan.buf → y ≠ conn →
        y ∉ MTCPServer.accepted streams →
        y ∉ owned (smuxServer conn { dflt with KeepAliveDisabled := true }).1 →
        y ∈ (MTCPServer.mux dflt smuxServer conn streams w).2.srv.connChan.buf ∧
        y ∉ closedConns owned
          ((MTCPServer.mux dflt smuxServer conn streams w).2.trace.drop w.trace.length))) ∧
    (∀ pre x e post, (smuxServer conn { dflt with KeepAliveDisabled := true }).2 = none →
      (∀ r ∈ pre, r.2 = none) → e ≠ none →
      ∀ y ∈ (pre.map Prod.fst).take (w.srv.connChan.cap - w.srv.connChan.buf.length),
        y ∈ (MTCPServer.mux dflt smuxServer conn (pre ++ (x, e) :: post) w).2.srv.connChan.buf ∧
        y ∈ closedConns
          (MTCPServer.ownedBy (smuxServer conn { dflt with KeepAliveDisabled := true }).1
            (pre ++ (x, e) :: post))
          ((MTCPServer.mux dflt smuxServer conn (pre ++ (x, e) :: post) w).2.trace.drop
            w.trace.length)) := by
  refine ⟨?_, ?_, ?_, ?_, ?_, ?_, ?_⟩
  · intro streams h
    exact mux_negotiation_fails dflt smuxServer conn streams w h
  · intro pre x e post h hpre he
    exact mux_stream_accept_fails dflt smuxServer conn w pre post x e h hpre he
  · intro rs h hrs
    exact mux_parked dflt smuxServer conn w rs h hrs
  · intro streams
    obtain ⟨h1, h2, h3⟩ := mux_srv dflt smuxServer conn streams w
    refine ⟨h1, h2, h3, ?_⟩
    intro pick r s1 hacc hr
    have := Accept_error_from_slot _ pick r s1 hacc hr
    rw [h1] at this
    exact this
  · intro w1 stream
    refine ⟨muxSelect_errChan w1 stream, ?_, ?_⟩
    · by_cases h : w1.srv.connChan.buf.length < w1.srv.connChan.cap
      · left
        rw [muxSelect_room w1 stream h]
        exact ⟨rfl, rfl⟩
      · right
        rw [muxSelect_full w1 stream (by omega)]
        exact ⟨rfl, rfl⟩
    · intro hfresh x hx
      by_cases h : w1.srv.connChan.buf.length < w1.srv.connChan.cap
      · rw [muxSelect_room w1 stream h] at hx
        simp at hx
      · rw [muxSelect_full w1 stream (by omega)] at hx ⊢
        simp at hx
        rw [hx]
        exact hfresh
  · intro owned
    obtain ⟨ha, hb, hc⟩ := mux_closedConns dflt smuxServer conn w owned
    refine ⟨ha, hb, hc, ?_, ?_⟩
    · intro streams y hy
      exact mux_closedConns_mem dflt smuxServer conn w owned streams y hy
    · intro streams y hy hconn hacc hown
      obtain ⟨_, _, t, ht⟩ := mux_srv dflt smuxServer conn streams w
      refine ⟨by rw [ht]; exact List.mem_append_left _ hy, ?_⟩
      intro hcl
      rcases mux_closedConns_mem dflt smuxServer conn w owned streams y hcl with h | h | h
      · exact hconn h
      · exact hacc h
      · exact hown h
  · intro pre x e post h hpre he y hy
    obtain ⟨_, _, hbuf⟩ := mux_stream_accept_fails dflt smuxServer conn w pre post x e h hpre he
    refine ⟨by rw [hbuf]; exact List.mem_append_right _ hy, ?_⟩
    rw [(mux_closedConns dflt smuxServer conn w _).2.1 pre x e post h hpre he]
    have hown : MTCPServer.ownedBy (smuxServer conn { dflt with KeepAliveDisabled := true }).1
        (pre ++ (x, e) :: post) (smuxServer conn { dflt with KeepAliveDisabled := true }).1 =
        pre.map Prod.fst := by
      simp [MTCPServer.ownedBy, accepted_first_error pre post x e hpre he]
    rw [hown]
    exact List.mem_append_left _ (List.mem_append_right _ (List.mem_of_mem_take hy))

/-- C8 as it was stated fails.  The task of connection 4 accepts stream 5
from session 0 and enqueues it, then a stream-accept fails: `mux` closes
session 0 while stream 5 is in the backlog, so when it has returned stream 5
is in the backlog and closed. -/
theorem C8_closes_queued_stream :
    (MTCPServer.mux ⟨1, false, 10, 30, 32768, 4194304, 65536⟩
        (fun _ _ => (some 0, none)) (some 4) [(some 5, none), (none, some "EOF")]
        ⟨NewMTCPServer "0.0.0.0:1234", []⟩).2.srv.connChan.buf = [some 5] ∧
    closedConns (MTCPServer.ownedBy (some 0) [(some 5, none), (none, some "EOF")])
      (MTCPServer.mux ⟨1, false, 10, 30, 32768, 4194304, 65536⟩
        (fun _ _ => (some 0, none)) (some 4) [(some 5, none), (none, some "EOF")]
        ⟨NewMTCPServer "0.0.0.0:1234", []⟩).2.trace = [some 5, some 4] ∧
    ¬ (∀ y ∈ closedConns (MTCPServer.ownedBy (some 0) [(some 5, none), (none, some "EOF")])
        (MTCPServer.mux ⟨1, false, 10, 30, 32768, 4194304, 65536⟩
          (fun _ _ => (some 0, none)) (some 4) [(some 5, none), (none, some "EOF")]
          ⟨NewMTCPServer "0.0.0.0:1234", []⟩).2.trace,
      y ∉ (MTCPServer.mux ⟨1, false, 10, 30, 32768, 4194304, 65536⟩
        (fun _ _ => (some 0, none)) (some 4) [(some 5, none), (none, some "EOF")]
        ⟨NewMTCPServer "0.0.0.0:1234", []⟩).2.srv.connChan.buf) := by
  decide

/-- C8 (amended) on a stream-accept failure with stream 1 of another session
in the backlog: stream 1 stays in the backlog and is not closed. -/
theorem C8_demux_failures_local_witness :
    (some 1 : NetConn) ∈ (MTCPServer.mux ⟨1, false, 10, 30, 32768, 4194304, 65536⟩
        (fun _ _ => (some 0, none)) (some 4) [(some 5, none), (none, some "EOF")]
        ⟨{ NewMTCPServer "0.0.0.0:1234" with connChan := ⟨1024, [some 1]⟩ }, []⟩).2.srv.connChan.buf ∧
    (some 1 : NetConn) ∉
      closedConns (MTCPServer.ownedBy (some 0) [(some 5, none), (none, some "EOF")])
        ((MTCPServer.mux ⟨1, false, 10, 30, 32768, 4194304, 65536⟩
          (fun _ _ => (some 0, none)) (some 4) [(some 5, none), (none, some "EOF")]
          ⟨{ NewMTCPServer "0.0.0.0:1234" with connChan := ⟨1024, [some 1]⟩ }, []⟩).2.trace.drop
          (World.mk { NewMTCPServer "0.0.0.0:1234" with connChan := ⟨1024, [some 1]⟩ }
            []).trace.length) :=
  ((C8_demux_failures_local ⟨1, false, 10, 30, 32768, 4194304, 65536⟩
      (fun _ _ => (some 0, none)) (some 4)
      ⟨{ NewMTCPServer "0.0.0.0:1234" with connChan := ⟨1024, [some 1]⟩ }, []⟩).2.2.2.2.2.1
    (MTCPServer.ownedBy (some 0) [(some 5, none), (none, some "EOF")])).2.2.2.2
    [(some 5, none), (none, some "EOF")] (some 1) (by decide) (by decide) (by decide)
    (by decide)

theorem dropEvents_configs (xs : List NetConn) :
    (MTCPServer.dropEvents xs).filterMap Event.config? = [] := by
  induction xs with
  | nil => rfl
  | cons x rest ih => simp [MTCPServer.dropEvents, Event.config?, ih]

theorem mux_configs (dflt : Config)
    (smuxServer : NetConn → Config → SessionPtr × GoError) (conn : NetConn)
    (streams : List (NetConn × GoError)) (w : World) :
    ((MTCPServer.mux dflt smuxServer conn streams w).2.trace.drop w.trace.length).filterMap
      Event.config? = [{ dflt with KeepAliveDisabled := true }] := by
  by_cases h : (smuxServer conn { dflt with KeepAliveDisabled := true }).2 = none
  · rw [mux_negotiation_ok dflt smuxServer conn streams w h]
    rcases split_first_error streams with hs | ⟨pre, x, e, post, h1, h2, h3⟩
    · rw [muxLoop_no_error streams _ hs]
      obtain ⟨_, _, _, h4⟩ := offerAll_spec (streams.map Prod.fst) { w with trace := w.trace ++
        [Event.SmuxServer conn { dflt with KeepAliveDisabled := true },
         Event.Debugf "session init %s  %s"] }
      simp only [Bool.false_eq_true, if_false, h4]
      simp [Event.config?, dropEvents_configs]
    · rw [h1, muxLoop_first_error pre post x e _ h2 h3]
      obtain ⟨_, _, _, h4⟩ := offerAll_spec (pre.map Prod.fst) { w with trace := w.trace ++
        [Event.SmuxServer conn { dflt with KeepAliveDisabled := true },
         Event.Debugf "session init %s  %s"] }
      simp only [if_true, World.emit, h4]
      simp [Event.config?, dropEvents_configs]
  · rw [mux_negotiation_fails dflt smuxServer conn streams w h]
    simp [Event.config?]

theorem InitNewSession_dial_fails (c : MTCPClient) (dflt : Config)
    (smuxClient : NetConn → Config → SessionPtr × GoError) (addr : String)
    (tr : List Event) (h : (c.Dial "tcp" addr).2 ≠ none) :
    c.InitNewSession dflt smuxClient addr tr =
      ((none, (c.Dial "tcp" addr).2), tr ++ [Event.RawDial "tcp" addr]) := by
  simp [MTCPClient.InitNewSession, h]

theorem InitNewSession_upgrade_fails (c : MTCPClient) (dflt : Config)
    (smuxClient : NetConn → Config → SessionPtr × GoError) (addr : String)
    (tr : List Event) (h : (c.Dial "tcp" addr).2 = none)
    (hu : (smuxClient (c.Dial "tcp" addr).1 { dflt with KeepAliveDisabled := true }).2 ≠ none) :
    c.InitNewSession dflt smuxClient addr tr =
      ((none, (smuxClient (c.Dial "tcp" addr).1 { dflt with KeepAliveDisabled := true }).2),
        tr ++ [Event.RawDial "tcp" addr,
          Event.SmuxClient (c.Dial "tcp" addr).1 { dflt with KeepAliveDisabled := true }]) := by
  simp [MTCPClient.InitNewSession, h, hu]

theorem InitNewSession_ok (c : MTCPClient) (dflt : Config)
    (smuxClient : NetConn → Config → SessionPtr × GoError) (addr : String)
    (tr : List Event) (h : (c.Dial "tcp" addr).2 = none)
    (hu : (smuxClient (c.Dial "tcp" addr).1 { dflt with KeepAliveDisabled := true }).2 = none) :
    c.InitNewSession dflt smuxClient addr tr =
      (((smuxClient (c.Dial "tcp" addr).1 { dflt with KeepAliveDisabled := true }).1, none),
        tr ++ [Event.RawDial "tcp" addr,
          Event.SmuxClient (c.Dial "tcp" addr).1 { dflt with KeepAliveDisabled := true },
          Event.Infof "init new session to: %s"]) := by
  simp [MTCPClient.InitNewSession, h, hu]

/-- C9. Keepalive is disabled on both sides: the configuration `mux` hands to
the server-side negotiation and the one `InitNewSession` hands to the
client-side upgrade are both the default configuration with keepalive
disabled and every other field as in the default.  `InitNewSession` dials
once; when the dial fails it returns a nil session and the dial error
without upgrading; otherwise it upgrades once, and returns a nil session and
the upgrade error when that fails, the session and a nil error when it
succeeds; so a non-nil session comes only with both steps successful. -/
theorem C9_keepalive_disabled (dflt : Config) :
    ({ dflt with KeepAliveDisabled := true } : Config).KeepAliveDisabled = true ∧
    (({ dflt with KeepAliveDisabled := true } : Config).Version = dflt.Version ∧
      ({ dflt with KeepAliveDisabled := true } : Config).KeepAliveInterval =
        dflt.KeepAliveInterval ∧
      ({ dflt with KeepAliveDisabled := true } : Config).KeepAliveTimeout =
        dflt.KeepAliveTimeout ∧
      ({ dflt with KeepAliveDisabled := true } : Config).MaxFrameSize = dflt.MaxFrameSize ∧
      ({ dflt with KeepAliveDisabled := true } : Config).MaxReceiveBuffer =
        dflt.MaxReceiveBuffer ∧
      ({ dflt with KeepAliveDisabled := true } : Config).MaxStreamBuffer =
        dflt.MaxStreamBuffer) ∧
    (∀ (smuxServer : NetConn → Config → SessionPtr × GoError) (conn : NetConn)
        (streams : List (NetConn × GoError)) (w : World),
      ((MTCPServer.mux dflt smuxServer conn streams w).2.trace.drop w.trace.length).filterMap
        Event.config? = [{ dflt with KeepAliveDisabled := true }]) ∧
    (∀ (c : MTCPClient) (smuxClient : NetConn → Config → SessionPtr × GoError)
        (addr : String) (tr : List Event),
      ((c.Dial "tcp" addr).2 ≠ none →
        c.InitNewSession dflt smuxClient addr tr =
          ((none, (c.Dial "tcp" addr).2), tr ++ [Event.RawDial "tcp" addr])) ∧
      ((c.Dial "tcp" addr).2 = none →
        (smuxClient (c.Dial "tcp" addr).1 { dflt with KeepAliveDisabled := true }).2 ≠ none →
        c.InitNewSession dflt smuxClient addr tr =
          ((none,
            (smuxClient (c.Dial "tcp" addr).1 { dflt with KeepAliveDisabled := true }).2),
            tr ++ [Event.RawDial "tcp" addr,
              Event.SmuxClient (c.Dial "tcp" addr).1
                { dflt with KeepAliveDisabled := true }])) ∧
      ((c.Dial "tcp" addr).2 = none →
        (smuxClient (c.Dial "tcp" addr).1 { dflt with KeepAliveDisabled := true }).2 = none →
        c.InitNewSession dflt smuxClient addr tr =
          (((smuxClient (c.Dial "tcp" addr).1 { dflt with KeepAliveDisabled := true }).1,
            none),
            tr ++ [Event.RawDial "tcp" addr,
              Event.SmuxClient (c.Dial "tcp" addr).1 { dflt with KeepAliveDisabled := true },
              Event.Infof "init new session to: %s"])) ∧
      ((c.InitNewSession dflt smuxClient addr tr).1.1 ≠ none →
        (c.Dial "tcp" addr).2 = none ∧
        (smuxClient (c.Dial "tcp" addr).1 { dflt with KeepAliveDisabled := true }).2 = none ∧
        (c.InitNewSession dflt smuxClient addr tr).1.2 = none) ∧
      ((c.InitNewSession dflt smuxClient addr tr).2.drop tr.length).countP
        Event.isRawDial = 1 ∧
      ((c.InitNewSession dflt smuxClient addr tr).2.drop tr.length).countP
        Event.isSmuxClient ≤ 1) := by
  refine ⟨rfl, ⟨rfl, rfl, rfl, rfl, rfl, rfl⟩, ?_, ?_⟩
  · intro smuxServer conn streams w
    exact mux_configs dflt smuxServer conn streams w
  · intro c smuxClient addr tr
    refine ⟨InitNewSession_dial_fails c dflt smuxClient addr tr,
      InitNewSession_upgrade_fails c dflt smuxClient addr tr,
      InitNewSession_ok c dflt smuxClient addr tr, ?_, ?_, ?_⟩
    · intro hs
      by_cases h : (c.Dial "tcp" addr).2 = none
      · by_cases hu :
          (smuxClient (c.Dial "tcp" addr).1 { dflt with KeepAliveDisabled := true }).2 = none
        · rw [InitNewSession_ok c dflt smuxClient addr tr h hu]
          exact ⟨h, hu, rfl⟩
        · rw [InitNewSession_upgrade_fails c dflt smuxClient addr tr h hu] at hs
          exact absurd rfl hs
      · rw [InitNewSession_dial_fails c dflt smuxClient addr tr h] at hs
        exact absurd rfl hs
    · by_cases h : (c.Dial "tcp" addr).2 = none
      · by_cases hu :
          (smuxClient (c.Dial "tcp" addr).1 { dflt with KeepAliveDisabled := true }).2 = none
        · rw [InitNewSession_ok c dflt smuxClient addr tr h hu]
          simp [Event.isRawDial]
        · rw [InitNewSession_upgrade_fails c dflt smuxClient addr tr h hu]
          simp [Event.isRawDial]
      · rw [InitNewSession_dial_fails c dflt smuxClient addr tr h]
        simp [Event.isRawDial]
    · by_cases h : (c.Dial "tcp" addr).2 = none
      · by_cases hu :
          (smuxClient (c.Dial "tcp" addr).1 { dflt with KeepAliveDisabled := true }).2 = none
        · rw [InitNewSession_ok c dflt smuxClient addr tr h hu]
          simp [Event.isSmuxClient]
        · rw [InitNewSession_upgrade_fails c dflt smuxClient addr tr h hu]
          simp [Event.isSmuxClient]
      · rw [InitNewSession_dial_fails c dflt smuxClient addr tr h]
        simp [Event.isSmuxClient]

/-- C9 on a successful dial followed by a failing upgrade. -/
theorem C9_keepalive_disabled_witness :
    MTCPClient.InitNewSession ⟨fun _ _ => (some 2, none)⟩
        ⟨1, false, 10, 30, 32768, 4194304, 65536⟩
        (fun _ _ => (none, some "bad version")) "10.0.0.1:443" [] =
      ((none, some "bad version"),
        [] ++ [Event.RawDial "tcp" "10.0.0.1:443",
          Event.SmuxClient (some 2) ⟨1, true, 10, 30, 32768, 4194304, 65536⟩]) :=
  ((C9_keepalive_disabled ⟨1, false, 10, 30, 32768, 4194304, 65536⟩).2.2.2
    ⟨fun _ _ => (some 2, none)⟩ (fun _ _ => (none, some "bad version"))
    "10.0.0.1:443" []).2.1 rfl (by decide)

/-- A step taken while the raw-accept loop is parked at its send with the
slot full, other than an `Accept` of a serve loop that is still running,
leaves the loop parked and the slot and the serve loop as they were. -/
theorem step_keeps_blocked (a : Action) (σ σ1 : System) (e : GoError)
    (hraw : σ.raw = RawPC.sending e)
    (hfull : σ.w.srv.errChan.cap ≤ σ.w.srv.errChan.buf.length)
    (ha : a.isServeAccept = true → ∃ x, σ.serve = ServePC.returned x)
    (h : System.step a σ = some σ1) :
    σ1.raw = RawPC.sending e ∧ σ1.w.srv.errChan = σ.w.srv.errChan ∧ σ1.serve = σ.serve := by
  cases a with
  | rawAccept c err => simp [System.step, hraw] at h
  | rawSend =>
    have hn : ¬ σ.w.srv.errChan.buf.length < σ.w.srv.errChan.cap := by omega
    simp [System.step, hraw, Chan.trySend, hn] at h
  | muxOffer stream =>
    simp only [System.step, Option.some.injEq] at h
    subst h
    exact ⟨hraw, muxSelect_errChan σ.w stream, rfl⟩
  | serveAccept pick =>
    obtain ⟨x, hx⟩ := ha rfl
    simp [System.step, hx] at h

theorem run_keeps_blocked (acts : List Action) (σ : System) (e : GoError)
    (hraw : σ.raw = RawPC.sending e)
    (hfull : σ.w.srv.errChan.cap ≤ σ.w.srv.errChan.buf.length)
    (ha : ∀ a ∈ acts, a.isServeAccept = true → ∃ x, σ.serve = ServePC.returned x) :
    (σ.run acts).raw = RawPC.sending e ∧ (σ.run acts).w.srv.errChan = σ.w.srv.errChan ∧
    (σ.run acts).serve = σ.serve := by
  induction acts generalizing σ with
  | nil => exact ⟨hraw, rfl, rfl⟩
  | cons a rest ih =>
    cases hs : System.step a σ with
    | none =>
      simp only [System.run, hs]
      exact ih σ hraw hfull (fun b hb => ha b (List.mem_cons_of_mem _ hb))
    | some σ1 =>
      obtain ⟨h1, h2, h3⟩ :=
        step_keeps_blocked a σ σ1 e hraw hfull (ha a (List.mem_cons_self _ _)) hs
      simp only [System.run, hs]
      have := ih σ1 h1 (by rw [h2]; exact hfull)
        (fun b hb hb2 => by rw [h3]; exact ha b (List.mem_cons_of_mem _ hb) hb2)
      rw [h2, h3] at this
      exact this

/-- The steps of the raw-accept loop and of the demux tasks keep nil out of
the channels: the loop sends an error only after `err != nil`. -/
theorem step_keeps_non_nil (a : Action) (σ σ1 : System)
    (hconn : ∀ x ∈ σ.w.srv.connChan.buf, x ≠ none)
    (herr : ∀ e ∈ σ.w.srv.errChan.buf, e ≠ none)
    (hraw : ∀ e, σ.raw = RawPC.sending e → e ≠ none)
    (ha : ∀ stream, a = Action.muxOffer stream → stream ≠ none)
    (h : System.step a σ = some σ1) :
    (∀ x ∈ σ1.w.srv.connChan.buf, x ≠ none) ∧ (∀ e ∈ σ1.w.srv.errChan.buf, e ≠ none) ∧
    (∀ e, σ1.raw = RawPC.sending e → e ≠ none) := by
  cases a with
  | rawAccept c err =>
    cases hr : σ.raw with
    | sending e0 => simp [System.step, hr] at h
    | accepting =>
      by_cases he : err = none
      · simp only [System.step, hr, he, ne_eq, not_true_eq_false, if_false,
          Option.some.injEq] at h
        subst h
        refine ⟨hconn, herr, ?_⟩
        intro e h2
        simp only [hr] at h2
        cases h2
      · simp only [System.step, hr, he, ne_eq, not_false_eq_true, if_true,
          Option.some.injEq] at h
        subst h
        refine ⟨hconn, herr, ?_⟩
        intro e h2
        simp only [RawPC.sending.injEq] at h2
        rw [← h2]; exact he
  | rawSend =>
    cases hr : σ.raw with
    | accepting => simp [System.step, hr] at h
    | sending e0 =>
      by_cases hl : σ.w.srv.errChan.buf.length < σ.w.srv.errChan.cap
      · simp only [System.step, hr, Chan.trySend, hl, if_true, Option.some.injEq] at h
        subst h
        refine ⟨hconn, ?_, ?_⟩
        · intro e he
          simp only [List.mem_append, List.mem_singleton] at he
          rcases he with he | he
          · exact herr e he
          · rw [he]; exact hraw e0 hr
        · intro e h2
          cases h2
      · simp [System.step, hr, Chan.trySend, hl] at h
  | muxOffer stream =>
    simp only [System.step, Option.some.injEq] at h
    subst h
    have hs : stream ≠ none := ha stream rfl
    refine ⟨?_, ?_, hraw⟩
    · by_cases hl : σ.w.srv.connChan.buf.length < σ.w.srv.connChan.cap
      · rw [muxSelect_room σ.w stream hl]
        intro x hx
        simp only [List.mem_append, List.mem_singleton] at hx
        rcases hx with hx | hx
        · exact hconn x hx
        · rw [hx]; exact hs
      · rw [muxSelect_full σ.w stream (by omega)]
        exact hconn
    · rw [muxSelect_errChan]
      exact herr
  | serveAccept pick =>
    cases hsv : σ.serve with
    | returned x => simp [System.step, hsv] at h
    | looping =>
      cases hacc : σ.w.srv.Accept pick with
      | none => simp [System.step, hsv, hacc] at h
      | some p =>
        obtain ⟨r, s1⟩ := p
        have hsub : (∀ x ∈ s1.connChan.buf, x ∈ σ.w.srv.connChan.buf) ∧
            (∀ e ∈ s1.errChan.buf, e ∈ σ.w.srv.errChan.buf) := by
          cases hc : σ.w.srv.connChan.buf with
          | nil =>
            cases he : σ.w.srv.errChan.buf with
            | nil => simp [MTCPServer.Accept, Chan.tryRecv, hc, he] at hacc
            | cons e es =>
              simp only [MTCPServer.Accept, Chan.tryRecv, hc, he, Option.some.injEq,
                Prod.mk.injEq] at hacc
              obtain ⟨_, h2⟩ := hacc
              subst h2
              simp only [hc, he]
              exact ⟨fun y hy => by simp_all, fun y hy => by simp_all⟩
          | cons x xs =>
            cases he : σ.w.srv.errChan.buf with
            | nil =>
              simp only [MTCPServer.Accept, Chan.tryRecv, hc, he, Option.some.injEq,
                Prod.mk.injEq] at hacc
              obtain ⟨_, h2⟩ := hacc
              subst h2
              simp only [hc, he]
              exact ⟨fun y hy => by simp_all, fun y hy => by simp_all⟩
            | cons e es =>
              cases pick with
              | true =>
                simp only [MTCPServer.Accept, Chan.tryRecv, hc, he, if_true,
                  Option.some.injEq, Prod.mk.injEq] at hacc
                obtain ⟨_, h2⟩ := hacc
                subst h2
                simp only [hc, he]
                exact ⟨fun y hy => by simp_all, fun y hy => by simp_all⟩
              | false =>
                simp only [MTCPServer.Accept, Chan.tryRecv, hc, he, Bool.false_eq_true,
                  if_false, Option.some.injEq, Prod.mk.injEq] at hacc
                obtain ⟨_, h2⟩ := hacc
                subst h2
                simp only [hc, he]
                exact ⟨fun y hy => by simp_all, fun y hy => by simp_all⟩
        by_cases hr2 : r.2 = none
        · simp only [System.step, hsv, hacc, hr2, ne_eq, not_true_eq_false, if_false,
            Option.some.injEq] at h
          subst h
          exact ⟨fun x hx => hconn x (hsub.1 x hx), fun e he => herr e (hsub.2 e he), hraw⟩
        · simp only [System.step, hsv, hacc, hr2, ne_eq, not_false_eq_true, if_true,
            Option.some.injEq] at h
          subst h
          exact ⟨fun x hx => hconn x (hsub.1 x hx), fun e he => herr e (hsub.2 e he), hraw⟩

/-- C10. Error-slot overflow hazard.  The slot built by `NewMTCPServer` holds
one error.  After a report the raw-accept loop accepts again.  From the
state right after a successful listen, two accept errors in a row with no
`Accept` in between leave the loop parked at its second send with the slot
full; so do three accept errors when the serve loop has taken the first and
returned.  A loop parked at its send with the slot full stays there, slot
unchanged, for as long as no `Accept` of the serve loop runs, and for ever
once the serve loop has returned. -/
theorem C10_error_slot_overflow (listenAddr : String) (lis : Nat) (c1 c2 c3 : NetConn)
    (e1 e2 e3 : String) :
    (NewMTCPServer listenAddr).errChan.cap = 1 ∧
    (∀ (σ : System) (e : GoError) (ch : Chan GoError), σ.raw = RawPC.sending e →
      σ.w.srv.errChan.trySend e = some ch →
      ∃ σ1, System.step Action.rawSend σ = some σ1 ∧ σ1.raw = RawPC.accepting ∧
        σ1.w.srv.errChan = ch ∧
        ∀ c err, (System.step (Action.rawAccept c err) σ1).isSome = true) ∧
    (∃ σ, (System.init listenAddr lis).exec
        [Action.rawAccept c1 (some e1), Action.rawSend, Action.rawAccept c2 (some e2)] =
          some σ ∧
      σ.raw = RawPC.sending (some e2) ∧ σ.w.srv.errChan = ⟨1, [some e1]⟩ ∧
      σ.serve = ServePC.looping ∧ System.step Action.rawSend σ = none) ∧
    (∀ pick, ∃ σ, (System.init listenAddr lis).exec
        [Action.rawAccept c1 (some e1), Action.rawSend, Action.serveAccept pick,
         Action.rawAccept c2 (some e2), Action.rawSend, Action.rawAccept c3 (some e3)] =
          some σ ∧
      σ.raw = RawPC.sending (some e3) ∧ σ.w.srv.errChan = ⟨1, [some e2]⟩ ∧
      σ.serve = ServePC.returned (some e1) ∧ System.step Action.rawSend σ = none ∧
      ∀ acts, (σ.run acts).raw = RawPC.sending (some e3) ∧
        (σ.run acts).w.srv.errChan = ⟨1, [some e2]⟩ ∧
        (σ.run acts).serve = ServePC.returned (some e1)) ∧
    (∀ (σ : System) (e : GoError) (acts : List Action), σ.raw = RawPC.sending e →
      σ.w.srv.errChan.cap ≤ σ.w.srv.errChan.buf.length →
      (∀ a ∈ acts, a.isServeAccept = false) →
      System.step Action.rawSend σ = none ∧
      (σ.run acts).raw = RawPC.sending e ∧
      (σ.run acts).w.srv.errChan = σ.w.srv.errChan) ∧
    (∀ (σ : System) (e x : GoError) (acts : List Action), σ.raw = RawPC.sending e →
      σ.w.srv.errChan.cap ≤ σ.w.srv.errChan.buf.length →
      σ.serve = ServePC.returned x →
      System.step Action.rawSend σ = none ∧
      (σ.run acts).raw = RawPC.sending e ∧
      (σ.run acts).w.srv.errChan = σ.w.srv.errChan ∧
      (σ.run acts).serve = ServePC.returned x) := by
  have hsend : ∀ (σ : System) (e : GoError), σ.raw = RawPC.sending e →
      σ.w.srv.errChan.cap ≤ σ.w.srv.errChan.buf.length →
      System.step Action.rawSend σ = none := by
    intro σ e hraw hfull
    have hn : ¬ σ.w.srv.errChan.buf.length < σ.w.srv.errChan.cap := by omega
    simp [System.step, hraw, Chan.trySend, hn]
  refine ⟨rfl, ?_, ?_, ?_, ?_, ?_⟩
  · intro σ e ch hraw hch
    have hstep : System.step Action.rawSend σ =
        some { σ with w := { σ.w with srv := { σ.w.srv with errChan := ch } },
                      raw := RawPC.accepting } := by
      simp only [System.step, hraw, hch]
    refine ⟨_, hstep, rfl, rfl, ?_⟩
    intro c err
    by_cases he : err = none
    · simp [System.step, he]
    · simp [System.step, he]
  · have hex : (System.init listenAddr lis).exec
        [Action.rawAccept c1 (some e1), Action.rawSend, Action.rawAccept c2 (some e2)] =
        some { w := { srv := { NewMTCPServer listenAddr with
                        listener := some lis, errChan := ⟨1, [some e1]⟩ },
                      trace := [] },
               raw := RawPC.sending (some e2),
               serve := ServePC.looping } := by
      simp [System.exec, System.step, System.init, NewMTCPServer, Chan.trySend]
    exact ⟨_, hex, rfl, rfl, rfl, hsend _ (some e2) rfl (by simp)⟩
  · intro pick
    have hex : (System.init listenAddr lis).exec
        [Action.rawAccept c1 (some e1), Action.rawSend, Action.serveAccept pick,
         Action.rawAccept c2 (some e2), Action.rawSend, Action.rawAccept c3 (some e3)] =
        some { w := { srv := { NewMTCPServer listenAddr with
                        listener := some lis, errChan := ⟨1, [some e2]⟩ },
                      trace := [] },
               raw := RawPC.sending (some e3),
               serve := ServePC.returned (some e1) } := by
      simp [System.exec, System.step, System.init, NewMTCPServer, Chan.trySend,
        MTCPServer.Accept, Chan.tryRecv]
    refine ⟨_, hex, rfl, rfl, rfl, ?_, ?_⟩
    · exact hsend _ (some e3) rfl (by simp)
    · intro acts
      exact run_keeps_blocked acts _ (some e3) rfl (by simp) (fun _ _ _ => ⟨_, rfl⟩)
  · intro σ e acts hraw hfull hacts
    refine ⟨hsend σ e hraw hfull, ?_⟩
    have := run_keeps_blocked acts σ e hraw hfull
      (fun a ha h => by rw [hacts a ha] at h; cases h)
    exact ⟨this.1, this.2.1⟩
  · intro σ e x acts hraw hfull hserve
    refine ⟨hsend σ e hraw hfull, ?_⟩
    have := run_keeps_blocked acts σ e hraw hfull (fun _ _ _ => ⟨x, hserve⟩)
    exact ⟨this.1, this.2.1, by rw [this.2.2]; exact hserve⟩

/-- C10 on a parked loop with a full slot and a schedule of offers and
further send attempts. -/
theorem C10_error_slot_overflow_witness :
    System.step Action.rawSend
      { w := ⟨{ NewMTCPServer "0.0.0.0:1234" with errChan := ⟨1, [some "e1"]⟩ }, []⟩,
        raw := RawPC.sending (some "e2"), serve := ServePC.looping } = none ∧
    (System.run
      { w := ⟨{ NewMTCPServer "0.0.0.0:1234" with errChan := ⟨1, [some "e1"]⟩ }, []⟩,
        raw := RawPC.sending (some "e2"), serve := ServePC.looping }
      [Action.rawSend, Action.muxOffer (some 1), Action.rawAccept none (some "e3"),
       Action.rawSend]).raw = RawPC.sending (some "e2") ∧
    (System.run
      { w := ⟨{ NewMTCPServer "0.0.0.0:1234" with errChan := ⟨1, [some "e1"]⟩ }, []⟩,
        raw := RawPC.sending (some "e2"), serve := ServePC.looping }
      [Action.rawSend, Action.muxOffer (some 1), Action.rawAccept none (some "e3"),
       Action.rawSend]).w.srv.errChan = ⟨1, [some "e1"]⟩ :=
  (C10_error_slot_overflow "0.0.0.0:1234" 0 none none none "e1" "e2" "e3").2.2.2.2.1
    { w := ⟨{ NewMTCPServer "0.0.0.0:1234" with errChan := ⟨1, [some "e1"]⟩ }, []⟩,
      raw := RawPC.sending (some "e2"), serve := ServePC.looping }
    (some "e2")
    [Action.rawSend, Action.muxOffer (some 1), Action.rawAccept none (some "e3"),
     Action.rawSend]
    rfl (by decide) (by decide)

end Ehco
